import Mathlib

/-!
Shallow embedding of the IntervalsGenerator merge / validation /
interpolation core (src/intervals/merger.py, utils.py, interpolation.py,
validators/integrity.py), together with proofs settling the frozen claims
about it.

Tables are modelled as lists of named columns; a cell is either missing
(pandas NaN), a rational number, or a string.  Row indexes are positional,
matching `reset_index(drop=True)` semantics.
-/

/-- Cell value of a table: missing (NaN), a number, or a string. -/
inductive Val where
  | null : Val
  | num : ℚ → Val
  | str : String → Val
deriving DecidableEq, Repr

instance : Inhabited Val := ⟨Val.null⟩

/-- Named column of a table. -/
structure Col where
  name : String
  vals : List Val
deriving DecidableEq, Repr

instance : Inhabited Col := ⟨⟨"", []⟩⟩

/-- A table (pandas DataFrame) is a list of named columns; rows are positional. -/
abbrev Frame := List Col

/-- Number of rows of a frame: the longest column length (a pandas frame is
rectangular, so for well-formed frames every column has this length). -/
def nRows (df : Frame) : ℕ :=
  (df.map (fun c => c.vals.length)).foldr max 0

/-- Column names of a frame. -/
def colNames (df : Frame) : List String :=
  df.map (fun c => c.name)

/-- First column with the given name (`df[name]`, with pandas returning the
first match on duplicate labels). -/
def lookupCol (df : Frame) (name : String) : Option (List Val) :=
  (df.find? (fun c => c.name == name)).map (fun c => c.vals)

/-- Pad a column with trailing NaN up to `n` rows: the effect of
`pd.concat(axis=1)`'s outer index alignment on a shorter column. -/
def padTo (n : ℕ) (c : Col) : Col :=
  ⟨c.name, c.vals ++ List.replicate (n - c.vals.length) Val.null⟩

/-- Concatenation of frames along the column axis
(`pd.concat(all_dfs, axis=1)` after `reset_index(drop=True)`): the result
index is the union of the positional indexes, i.e. `0 .. max nRows - 1`,
and shorter columns are padded with NaN. -/
def concatCols (dfs : List Frame) : Frame :=
  let n := (dfs.map nRows).foldr max 0
  dfs.flatten.map (padTo n)

/-- Drop from `df` every column whose name is in `seen`
(`duplicates = [col for col in new_reset.columns if col in seen_columns]`
followed by `drop(columns=duplicates)`). -/
def dropDup (seen : List String) (df : Frame) : Frame :=
  df.filter (fun c => decide (c.name ∉ seen))

/-- Loop body of `DataMerger.merge_files`: for each source, drop the columns
already seen, skip the source when it is empty or contributes no columns
(`if new_reset.empty or len(new_reset.columns) == 0: continue`), otherwise
keep it and record its column names. -/
def mergeFold : List Frame → List String → List Frame
  | [], _ => []
  | df :: rest, seen =>
    let newDf := dropDup seen df
    if nRows newDf = 0 ∨ newDf = [] then
      mergeFold rest seen
    else
      newDf :: mergeFold rest (seen ++ colNames newDf)

/-- Whitespace-only or empty string, the `r"^\s*$"` pattern used by the head
and tail trimming passes to turn blank object cells into NaN. -/
def isBlankStr (s : String) : Bool :=
  s.all (fun ch => ch.isWhitespace)

/-- Cell counts as missing for the head/tail completeness mask: NaN, or a
string matching `^\s*$` (the trims first replace such strings by NaN). -/
def isBlankVal : Val → Bool
  | Val.null => true
  | Val.str s => isBlankStr s
  | Val.num _ => false

/-- Time-related column names (`TIME_KEYWORDS`, compared case-insensitively). -/
def TIME_KEYWORDS : List String := ["secs", "seconds", "time", "timestamp", "timer.s"]

/-- Column-name test used by the head trim to leave time columns untouched. -/
def isTimeCol (name : String) : Bool :=
  TIME_KEYWORDS.contains name.toLower

/-- Row `i` is complete when no column holds a missing/blank cell there. -/
def rowComplete (df : Frame) (i : ℕ) : Bool :=
  df.all (fun c => !isBlankVal (c.vals.getD i Val.null))

/-- Index of the first fully complete row (`complete_indices[0]`). -/
def firstCompleteRow (df : Frame) : Option ℕ :=
  (List.range (nRows df)).find? (fun i => rowComplete df i)

/-- Shift a column's values up by `k` rows, padding the tail with NaN
(`shift(-k)` on a pandas series). -/
def shiftUp (k : ℕ) (vs : List Val) : List Val :=
  vs.drop k ++ List.replicate (min k vs.length) Val.null

/-- The head-trim pass `DataMerger._validate_and_trim_head`: locate the first
complete row; if no row is complete or the first row already is, return the
table unchanged; otherwise ask for confirmation (`confirm` stands for the
`ask_yes_no` answer) and, when granted, shift every non-time column up by the
offset while leaving time columns intact. -/
def trimHead (df : Frame) (confirm : Bool) : Frame :=
  match firstCompleteRow df with
  | none => df
  | some k =>
    if k = 0 then df
    else if !confirm then df
    else
      df.map (fun c =>
        if isTimeCol c.name then c else ⟨c.name, shiftUp k c.vals⟩)

/-- Index of the last fully complete row. -/
def lastCompleteRow (df : Frame) : Option ℕ :=
  ((List.range (nRows df)).filter (fun i => rowComplete df i)).getLast?

/-- The tail-trim pass `DataMerger._validate_and_trim_tail`: keep rows up to
the last fully complete one; with no complete row the table is unchanged. -/
def trimTail (df : Frame) : Frame :=
  match lastCompleteRow df with
  | none => df
  | some k => df.map (fun c => ⟨c.name, c.vals.take (k + 1)⟩)

/-- The merge engine `DataMerger.merge_files`: batch-collect the base and the
deduplicated sources, concatenate along the column axis once, then run the
optional head and tail trims.  `confirm` is the head trim's `ask_yes_no`
answer. -/
def merge_files (base : Frame) (sources : List Frame)
    (validateHead validateTail : Bool) (confirm : Bool := true) : Frame :=
  let allDfs := base :: mergeFold sources (colNames base)
  let merged := concatCols allDfs
  let merged := if validateHead then trimHead merged confirm else merged
  if validateTail then trimTail merged else merged

/-! Helper lemmas about the merge engine. -/

theorem padTo_name (n : ℕ) (c : Col) : (padTo n c).name = c.name := rfl

theorem nRows_cons (c : Col) (df : Frame) :
    nRows (c :: df) = max c.vals.length (nRows df) := rfl

theorem length_le_nRows {df : Frame} {c : Col} (h : c ∈ df) :
    c.vals.length ≤ nRows df := by
  induction df with
  | nil => cases h
  | cons d ds ih =>
    rcases List.mem_cons.1 h with h | h
    · subst h; rw [nRows_cons]; exact Nat.le_max_left _ _
    · rw [nRows_cons]; exact le_trans (ih h) (Nat.le_max_right _ _)

theorem nRows_dropDup_le (seen : List String) (df : Frame) :
    nRows (dropDup seen df) ≤ nRows df := by
  induction df with
  | nil => simp [dropDup, nRows]
  | cons d ds ih =>
    rw [dropDup, List.filter_cons]
    rw [dropDup] at ih
    by_cases h : (decide (d.name ∉ seen)) = true
    · rw [if_pos h, nRows_cons, nRows_cons]
      exact max_le_max (le_refl _) ih
    · rw [if_neg h, nRows_cons]
      exact le_trans ih (Nat.le_max_right _ _)

theorem mergeFold_nRows_le {srcs : List Frame} {B : ℕ}
    (h : ∀ df ∈ srcs, nRows df ≤ B) :
    ∀ seen, ∀ g ∈ mergeFold srcs seen, nRows g ≤ B := by
  induction srcs with
  | nil => intro seen g hg; simp [mergeFold] at hg
  | cons d ds ih =>
    intro seen g hg
    rw [mergeFold] at hg
    by_cases hskip : nRows (dropDup seen d) = 0 ∨ dropDup seen d = []
    · rw [if_pos hskip] at hg
      exact ih (fun df hdf => h df (List.mem_cons_of_mem _ hdf)) seen g hg
    · rw [if_neg hskip] at hg
      rcases List.mem_cons.1 hg with hg | hg
      · subst hg
        exact le_trans (nRows_dropDup_le seen d) (h d (List.mem_cons_self _ _))
      · exact ih (fun df hdf => h df (List.mem_cons_of_mem _ hdf)) _ g hg

theorem foldr_max_map_le {α : Type} {l : List α} {f : α → ℕ} {B : ℕ}
    (h : ∀ x ∈ l, f x ≤ B) : (l.map f).foldr max 0 ≤ B := by
  induction l with
  | nil => simp
  | cons x xs ih =>
    simp only [List.map_cons, List.foldr_cons]
    exact Nat.max_le.2 ⟨h x (List.mem_cons_self _ _),
      ih (fun y hy => h y (List.mem_cons_of_mem _ hy))⟩

theorem foldr_max_map_const {α : Type} {l : List α} {f : α → ℕ} {N : ℕ}
    (h : ∀ x ∈ l, f x = N) (hne : l ≠ []) : (l.map f).foldr max 0 = N := by
  induction l with
  | nil => exact absurd rfl hne
  | cons x xs ih =>
    simp only [List.map_cons, List.foldr_cons]
    rcases List.eq_nil_or_concat xs with hx | _
    · subst hx
      simp [h x (List.mem_cons_self _ _)]
    · cases xs with
      | nil => simp [h x (List.mem_cons_self _ _)]
      | cons y ys =>
        rw [h x (List.mem_cons_self _ _),
          ih (fun z hz => h z (List.mem_cons_of_mem _ hz)) (by simp)]
        exact Nat.max_self N

theorem merge_files_no_trim (base : Frame) (sources : List Frame) :
    merge_files base sources false false
      = concatCols (base :: mergeFold sources (colNames base)) := rfl

/-- Claim C1.  Merge is column-duplicate-safe: whenever the base table has a
column named `n` with values `v`, the merged table (pre-trim) still has `n`
resolving to exactly `v` on the base's rows, only padded with trailing NaN
when a longer source extends the row index; a source's column of the same
name never replaces the base's values. -/
theorem C1_merge_keeps_base_values (base : Frame) (sources : List Frame)
    (n : String) (v : List Val) (hbase : lookupCol base n = some v) :
    ∃ w, lookupCol (merge_files base sources false false) n = some w ∧
      w.take v.length = v ∧ ∀ x ∈ w.drop v.length, x = Val.null := by
  rcases Option.map_eq_some'.1 hbase with ⟨c, hc, hcv⟩
  rw [merge_files_no_trim, concatCols]
  set N := ((base :: mergeFold sources (colNames base)).map nRows).foldr max 0 with hN
  refine ⟨(padTo N c).vals, ?_, ?_, ?_⟩
  · rw [lookupCol, List.flatten_cons, List.map_append, List.find?_append]
    have hfind : (base.map (padTo N)).find? (fun col => col.name == n)
        = some (padTo N c) := by
      have : (fun col => col.name == n) ∘ padTo N = fun col => col.name == n := rfl
      rw [List.find?_map, this, hc]
      rfl
    rw [hfind]
    rfl
  · rw [padTo, ← hcv]
    exact List.take_left _ _
  · intro x hx
    rw [padTo, ← hcv] at hx
    simp only [List.drop_left] at hx
    exact List.eq_of_mem_replicate hx

/-- Witness for C1 at a concrete input: a base with `watts = [100, 110]` merged
against a source that also contributes `watts = [999, 998]` keeps the base's
values. -/
theorem C1_merge_keeps_base_values_witness :
    lookupCol [⟨"secs", [Val.num 0, Val.num 1]⟩, ⟨"watts", [Val.num 100, Val.num 110]⟩]
      "watts" = some [Val.num 100, Val.num 110] ∧
    ∃ w, lookupCol (merge_files
        [⟨"secs", [Val.num 0, Val.num 1]⟩, ⟨"watts", [Val.num 100, Val.num 110]⟩]
        [[⟨"watts", [Val.num 999, Val.num 998]⟩, ⟨"smo2", [Val.num 65, Val.num 64]⟩]]
        false false) "watts" = some w ∧
      w.take 2 = [Val.num 100, Val.num 110] ∧ ∀ x ∈ w.drop 2, x = Val.null :=
  ⟨by decide, C1_merge_keeps_base_values _ _ "watts" [Val.num 100, Val.num 110] (by decide)⟩

theorem lookupCol_concatCols (dfs : List Frame) (n : String) :
    lookupCol (concatCols dfs) n
      = ((dfs.flatten).find? (fun c => c.name == n)).map
          (fun c => (padTo ((dfs.map nRows).foldr max 0) c).vals) := by
  rw [concatCols, lookupCol, List.find?_map, Option.map_map]
  rfl

theorem mem_dropDup {seen : List String} {df : Frame} {c : Col}
    (h : c ∈ dropDup seen df) : c ∈ df :=
  (List.mem_filter.1 h).1

theorem find?_name_eq {df : Frame} {n : String} {c : Col}
    (h : df.find? (fun c => c.name == n) = some c) : c ∈ df ∧ c.name = n :=
  ⟨List.mem_of_find?_eq_some h, by
    have := List.find?_some h
    exact eq_of_beq this⟩

theorem mergeFold_nil (seen : List String) : mergeFold [] seen = [] := rfl

theorem mergeFold_cons (df : Frame) (rest : List Frame) (seen : List String) :
    mergeFold (df :: rest) seen
      = if nRows (dropDup seen df) = 0 ∨ dropDup seen df = []
        then mergeFold rest seen
        else dropDup seen df :: mergeFold rest (seen ++ colNames (dropDup seen df)) := rfl

theorem dropDup_append_disjoint {seen extra : List String} {df : Frame}
    (h : ∀ c ∈ df, c.name ∉ extra) :
    dropDup (seen ++ extra) df = dropDup seen df := by
  apply List.filter_congr
  intro c hc
  simp [List.mem_append, h c hc]

/-- Counterexample to claim C6 as stated: two sources that share a column name
`x` (with different values) merge to different values depending on order —
first writer wins, so `[A, B]` keeps A's `x` and `[B, A]` keeps B's. -/
theorem C6_order_counterexample :
    lookupCol (merge_files [⟨"t", [Val.num 0]⟩]
        [[⟨"x", [Val.num 1]⟩], [⟨"x", [Val.num 2]⟩]] false false) "x"
      = some [Val.num 1] ∧
    lookupCol (merge_files [⟨"t", [Val.num 0]⟩]
        [[⟨"x", [Val.num 2]⟩], [⟨"x", [Val.num 1]⟩]] false false) "x"
      = some [Val.num 2] := by
  constructor <;> decide

/-- Claim C6 (amended).  Merging sources `[A, B]` and `[B, A]` into the same
base yields identical values for every column name, provided no column name
occurs in both A and B (column names shared with the base are dropped from
both sources in either order, so they are harmless); when A and B do share a
column name, first-writer-wins makes the result order-dependent. -/
theorem C6_order_independent (base A B : Frame)
    (hdisj : ∀ c ∈ A, ∀ c' ∈ B, c.name ≠ c'.name) (n : String) :
    lookupCol (merge_files base [A, B] false false) n
      = lookupCol (merge_files base [B, A] false false) n := by
  rw [merge_files_no_trim, merge_files_no_trim]
  set s0 := colNames base with hs0
  have hAB : dropDup (s0 ++ colNames (dropDup s0 A)) B = dropDup s0 B := by
    apply dropDup_append_disjoint
    intro c hc hmem
    rcases List.mem_map.1 hmem with ⟨c', hc', hname⟩
    exact hdisj c' (mem_dropDup hc') c hc hname
  have hBA : dropDup (s0 ++ colNames (dropDup s0 B)) A = dropDup s0 A := by
    apply dropDup_append_disjoint
    intro c hc hmem
    rcases List.mem_map.1 hmem with ⟨c', hc', hname⟩
    exact hdisj c hc c' (mem_dropDup hc') hname.symm
  set A' := dropDup s0 A with hA'
  set B' := dropDup s0 B with hB'
  have hfold1 : mergeFold [A, B] s0
      = (if nRows A' = 0 ∨ A' = [] then [] else [A'])
        ++ (if nRows B' = 0 ∨ B' = [] then [] else [B']) := by
    rw [mergeFold_cons, ← hA']
    by_cases hA : nRows A' = 0 ∨ A' = []
    · simp only [if_pos hA, List.nil_append, mergeFold_cons, mergeFold_nil, ← hB']
    · simp only [if_neg hA, mergeFold_cons, hAB, mergeFold_nil, ← hB']
      by_cases hB : nRows B' = 0 ∨ B' = []
      · simp only [if_pos hB]; rfl
      · simp only [if_neg hB]; rfl
  have hfold2 : mergeFold [B, A] s0
      = (if nRows B' = 0 ∨ B' = [] then [] else [B'])
        ++ (if nRows A' = 0 ∨ A' = [] then [] else [A']) := by
    rw [mergeFold_cons, ← hB']
    by_cases hB : nRows B' = 0 ∨ B' = []
    · simp only [if_pos hB, List.nil_append, mergeFold_cons, mergeFold_nil, ← hA']
    · simp only [if_neg hB, mergeFold_cons, hBA, mergeFold_nil, ← hA']
      by_cases hA : nRows A' = 0 ∨ A' = []
      · simp only [if_pos hA]; rfl
      · simp only [if_neg hA]; rfl
  rw [hfold1, hfold2]
  by_cases hA : nRows A' = 0 ∨ A' = [] <;> by_cases hB : nRows B' = 0 ∨ B' = []
  · simp only [if_pos hA, if_pos hB]
  · simp only [if_pos hA, if_neg hB]; rfl
  · simp only [if_neg hA, if_pos hB]; rfl
  · simp only [if_neg hA, if_neg hB]
    rw [lookupCol_concatCols, lookupCol_concatCols]
    have hNeq : (((base :: ([A'] ++ [B'])).map nRows).foldr max 0)
        = (((base :: ([B'] ++ [A'])).map nRows).foldr max 0) := by
      simp only [List.cons_append, List.map_cons, List.map_nil, List.foldr_cons,
        List.foldr_nil, List.nil_append]
      omega
    rw [hNeq]
    have hflat1 : ((base :: ([A'] ++ [B'])) : List Frame).flatten
        = base ++ (A' ++ (B' ++ [])) := rfl
    have hflat2 : ((base :: ([B'] ++ [A'])) : List Frame).flatten
        = base ++ (B' ++ (A' ++ [])) := rfl
    rw [hflat1, hflat2]
    simp only [List.find?_append]
    cases hbase : base.find? (fun c => c.name == n) with
    | some c => rfl
    | none =>
      simp only [Option.none_or]
      cases hA2 : A'.find? (fun c => c.name == n) with
      | some c =>
        cases hB2 : B'.find? (fun c => c.name == n) with
        | some c' =>
          exfalso
          have h1 := find?_name_eq hA2
          have h2 := find?_name_eq hB2
          exact hdisj c (mem_dropDup h1.1) c' (mem_dropDup h2.1)
            (h1.2.trans h2.2.symm)
        | none => simp only [hB2, Option.none_or, Option.or_some]
      | none =>
        cases hB2 : B'.find? (fun c => c.name == n) with
        | some c' => simp only [hB2, Option.none_or, Option.or_some]
        | none => simp only [hB2, Option.none_or, Option.or_some]

/-- Cell null test of `check_consecutive_nans_optimized`:
`is_null = series.isna() | (series == "")` — missing, or equal to the empty
string (a numeric cell never compares equal to a string in pandas). -/
def isNullCell : Val → Bool
  | Val.null => true
  | Val.str s => s == ""
  | Val.num _ => false

/-- Tail-recursive maximum run of `true` in a boolean mask: the value computed
by the cumsum/groupby run-length encoding (`null_groups.value_counts().max()`).
`cur` is the length of the run currently open, `best` the best closed run. -/
def maxRunAux : List Bool → ℕ → ℕ → ℕ
  | [], cur, best => max cur best
  | b :: rest, cur, best =>
    if b then maxRunAux rest (cur + 1) best
    else maxRunAux rest 0 (max cur best)

/-- The gap-length algorithm `check_consecutive_nans_optimized` of
`src/intervals/utils.py`: return 0 when no cell is null; return the total null
count when it is below the threshold (early exit); otherwise run-length-encode
the null mask and return the largest all-null run.  (The defensive
`null_groups.empty` re-check is unreachable after the `any()` test and is
dropped.) -/
def check_consecutive_nans_optimized (s : List Val) (threshold : ℕ := 10) : ℕ :=
  let is_null := s.map isNullCell
  if is_null.any id then
    let null_count := is_null.count true
    if null_count < threshold then null_count
    else maxRunAux is_null 0 0
  else 0

/-- A boolean mask contains `r` consecutive `true` entries. -/
def HasTrueSeg (m : List Bool) (r : ℕ) : Prop :=
  ∃ pre suf, m = pre ++ List.replicate r true ++ suf

/-- A column contains `r` consecutive null cells (missing or empty string),
the spec-side notion of a gap of length `r`. -/
def HasNullSeg (s : List Val) (r : ℕ) : Prop :=
  ∃ pre mid suf, s = pre ++ mid ++ suf ∧ mid.length = r ∧
    ∀ v ∈ mid, v = Val.null ∨ v = Val.str ""

theorem isNullCell_iff (v : Val) :
    isNullCell v = true ↔ (v = Val.null ∨ v = Val.str "") := by
  cases v with
  | null => simp [isNullCell]
  | num q => simp [isNullCell]
  | str s => simp [isNullCell, String.ext_iff]

theorem best_le_maxRunAux : ∀ (m : List Bool) (cur best : ℕ),
    best ≤ maxRunAux m cur best := by
  intro m
  induction m with
  | nil => intro cur best; exact Nat.le_max_right _ _
  | cons b rest ih =>
    intro cur best
    rw [maxRunAux]
    by_cases hb : b = true
    · rw [if_pos hb]; exact ih (cur + 1) best
    · rw [if_neg hb]
      exact le_trans (Nat.le_max_right cur best) (ih 0 (max cur best))

theorem replicate_true_append_cons_true (cur : ℕ) (rest : List Bool) :
    List.replicate cur true ++ true :: rest
      = List.replicate (cur + 1) true ++ rest := by
  rw [List.replicate_succ']
  simp

theorem maxRunAux_hasSeg : ∀ (m : List Bool) (cur best : ℕ) (orig : List Bool),
    (∃ p, orig = p ++ (List.replicate cur true ++ m)) →
    HasTrueSeg orig best →
    HasTrueSeg orig (maxRunAux m cur best) := by
  intro m
  induction m with
  | nil =>
    intro cur best orig hsuf hbest
    rw [maxRunAux]
    rcases Nat.le_total cur best with h | h
    · rwa [Nat.max_eq_right h]
    · rw [Nat.max_eq_left h]
      rcases hsuf with ⟨p, hp⟩
      exact ⟨p, [], by simpa using hp⟩
  | cons b rest ih =>
    intro cur best orig hsuf hbest
    rw [maxRunAux]
    by_cases hb : b = true
    · subst hb
      rw [if_pos rfl]
      apply ih (cur + 1) best orig _ hbest
      rcases hsuf with ⟨p, hp⟩
      exact ⟨p, by rw [hp, replicate_true_append_cons_true]⟩
    · have hb' : b = false := Bool.eq_false_iff.2 hb
      subst hb'
      rw [if_neg (by simp)]
      apply ih 0 (max cur best) orig
      · rcases hsuf with ⟨p, hp⟩
        exact ⟨p ++ List.replicate cur true ++ [false], by
          rw [hp]; simp⟩
      · rcases Nat.le_total cur best with h | h
        · rwa [Nat.max_eq_right h]
        · rw [Nat.max_eq_left h]
          rcases hsuf with ⟨p, hp⟩
          exact ⟨p, false :: rest, by simpa using hp⟩

theorem replicate_true_false_eq (a : ℕ) (t : List Bool) :
    ∀ (r : ℕ) (s : List Bool),
      List.replicate a true ++ false :: t = List.replicate r true ++ s →
      r ≤ a := by
  induction a with
  | zero =>
    intro r s h
    cases r with
    | zero => exact Nat.le_refl 0
    | succ r' =>
      rw [List.replicate_succ] at h
      simp at h
  | succ a' ih =>
    intro r s h
    cases r with
    | zero => exact Nat.zero_le _
    | succ r' =>
      rw [List.replicate_succ, List.replicate_succ] at h
      simp only [List.cons_append, List.cons.injEq] at h
      exact Nat.succ_le_succ (ih r' s h.2)

theorem trueSeg_split : ∀ (p : List Bool) (cur : ℕ) (rest : List Bool)
    (r : ℕ) (s : List Bool),
    List.replicate cur true ++ false :: rest = p ++ List.replicate r true ++ s →
    r ≤ cur ∨ HasTrueSeg rest r := by
  intro p
  induction p with
  | nil =>
    intro cur rest r s h
    rw [List.nil_append] at h
    exact Or.inl (replicate_true_false_eq cur rest r s h)
  | cons x p' ih =>
    intro cur rest r s h
    cases cur with
    | zero =>
      simp only [List.replicate, List.nil_append, List.cons_append,
        List.cons.injEq] at h
      exact Or.inr ⟨p', s, h.2⟩
    | succ c =>
      rw [List.replicate_succ] at h
      simp only [List.cons_append, List.cons.injEq] at h
      rcases ih c rest r s h.2 with h' | h'
      · exact Or.inl (Nat.le_succ_of_le h')
      · exact Or.inr h'

theorem maxRunAux_ge_seg : ∀ (m : List Bool) (cur best r : ℕ),
    HasTrueSeg (List.replicate cur true ++ m) r →
    r ≤ maxRunAux m cur best := by
  intro m
  induction m with
  | nil =>
    intro cur best r hseg
    rcases hseg with ⟨p, s, hp⟩
    have hlen := congrArg List.length hp
    simp only [List.length_append, List.length_replicate, List.append_nil] at hlen
    rw [maxRunAux]
    exact le_trans (by omega) (Nat.le_max_left cur best)
  | cons b rest ih =>
    intro cur best r hseg
    rw [maxRunAux]
    by_cases hb : b = true
    · subst hb
      rw [if_pos rfl]
      apply ih (cur + 1) best r
      rwa [← replicate_true_append_cons_true]
    · have hb' : b = false := Bool.eq_false_iff.2 hb
      subst hb'
      rw [if_neg (by simp)]
      rcases hseg with ⟨p, s, hp⟩
      rcases trueSeg_split p cur rest r s hp with h | h
      · exact le_trans (le_trans h (Nat.le_max_left cur best))
          (best_le_maxRunAux rest 0 (max cur best))
      · rcases h with ⟨p', s', hp'⟩
        exact ih 0 (max cur best) r ⟨p', s', by simpa using hp'⟩

theorem hasTrueSeg_le_count {m : List Bool} {r : ℕ} (h : HasTrueSeg m r) :
    r ≤ m.count true := by
  rcases h with ⟨p, s, hp⟩
  subst hp
  simp [List.count_append, List.count_replicate_self]
  omega

theorem count_true_map_isNullCell (s : List Val) :
    (s.map isNullCell).count true = s.countP (fun v => isNullCell v) := by
  rw [List.count_eq_countP, List.countP_map]
  apply List.countP_congr
  intro v _
  simp

theorem countP_decide_eq_countP_isNullCell (s : List Val) :
    s.countP (fun v => decide (v = Val.null ∨ v = Val.str ""))
      = s.countP (fun v => isNullCell v) := by
  apply List.countP_congr
  intro v _
  simp only [decide_eq_true_eq]
  exact (isNullCell_iff v).symm

theorem hasTrueSeg_map_iff (f : Val → Bool) (s : List Val) (r : ℕ) :
    HasTrueSeg (s.map f) r ↔
      ∃ pre mid suf, s = pre ++ mid ++ suf ∧ mid.length = r ∧
        ∀ v ∈ mid, f v = true := by
  constructor
  · rintro ⟨p, sfx, heq⟩
    have hlen : p.length + r ≤ s.length := by
      have := congrArg List.length heq
      simp only [List.length_map, List.length_append, List.length_replicate] at this
      omega
    refine ⟨s.take p.length, (s.drop p.length).take r,
      (s.drop p.length).drop r, ?_, ?_, ?_⟩
    · rw [List.append_assoc, List.take_append_drop, List.take_append_drop]
    · rw [List.length_take, List.length_drop]
      omega
    · have hmid : ((s.drop p.length).take r).map f
          = List.replicate r true := by
        rw [List.map_take, List.map_drop, heq, List.append_assoc,
          List.drop_left, List.take_left' (List.length_replicate _ _)]
      intro v hv
      have : f v ∈ List.replicate r true := by
        rw [← hmid]
        exact List.mem_map_of_mem _ hv
      exact List.eq_of_mem_replicate this
  · rintro ⟨pre, mid, suf, heq, hlen, hmem⟩
    refine ⟨pre.map f, suf.map f, ?_⟩
    have hmid : mid.map f = List.replicate r true := by
      rw [List.eq_replicate_iff]
      exact ⟨by rw [List.length_map, hlen], fun b hb => by
        rcases List.mem_map.1 hb with ⟨v, hv, hbv⟩
        rw [← hbv]; exact hmem v hv⟩
    rw [heq, List.map_append, List.map_append, hmid]

theorem hasNullSeg_iff_hasTrueSeg (s : List Val) (r : ℕ) :
    HasNullSeg s r ↔ HasTrueSeg (s.map isNullCell) r := by
  rw [hasTrueSeg_map_iff]
  constructor
  · rintro ⟨pre, mid, suf, heq, hlen, hmem⟩
    exact ⟨pre, mid, suf, heq, hlen, fun v hv => (isNullCell_iff v).2 (hmem v hv)⟩
  · rintro ⟨pre, mid, suf, heq, hlen, hmem⟩
    exact ⟨pre, mid, suf, heq, hlen, fun v hv => (isNullCell_iff v).1 (hmem v hv)⟩

theorem hasNullSeg_le_countP {s : List Val} {r : ℕ} (h : HasNullSeg s r) :
    r ≤ s.countP (fun v => isNullCell v) := by
  rw [← count_true_map_isNullCell]
  exact hasTrueSeg_le_count ((hasNullSeg_iff_hasTrueSeg s r).1 h)

theorem maxRunAux_top_hasSeg (m : List Bool) :
    HasTrueSeg m (maxRunAux m 0 0) :=
  maxRunAux_hasSeg m 0 0 m ⟨[], by simp⟩ ⟨[], m, by simp⟩

theorem maxRunAux_top_ge {m : List Bool} {r : ℕ} (h : HasTrueSeg m r) :
    r ≤ maxRunAux m 0 0 :=
  maxRunAux_ge_seg m 0 0 r (by simpa using h)

/-- Claim C3.  The gap-length algorithm treats a cell as null iff it is
missing or the empty string, returns 0 on a column without nulls, returns the
total null count when that total is strictly below the threshold, and
otherwise returns the length of the longest run of consecutive nulls. -/
theorem C3_gap_length_algorithm (s : List Val) (t : ℕ) :
    (∀ v, isNullCell v = true ↔ (v = Val.null ∨ v = Val.str "")) ∧
    ((∀ v ∈ s, ¬(v = Val.null ∨ v = Val.str "")) →
      check_consecutive_nans_optimized s t = 0) ∧
    (s.countP (fun v => decide (v = Val.null ∨ v = Val.str "")) < t →
      check_consecutive_nans_optimized s t
        = s.countP (fun v => decide (v = Val.null ∨ v = Val.str ""))) ∧
    (t ≤ s.countP (fun v => decide (v = Val.null ∨ v = Val.str "")) →
      HasNullSeg s (check_consecutive_nans_optimized s t) ∧
      ∀ r, HasNullSeg s r → r ≤ check_consecutive_nans_optimized s t) := by
  have hany : (s.map isNullCell).any id = s.any (fun v => isNullCell v) := by
    induction s with
    | nil => rfl
    | cons x xs ih => simp only [List.map_cons, List.any_cons, ih]; rfl
  refine ⟨isNullCell_iff, ?_, ?_, ?_⟩
  · intro h
    have hfalse : s.any (fun v => isNullCell v) = false := by
      rw [List.any_eq_false]
      intro v hv hcon
      exact h v hv ((isNullCell_iff v).1 hcon)
    simp only [check_consecutive_nans_optimized, hany, hfalse]
    rfl
  · intro hlt
    rw [countP_decide_eq_countP_isNullCell] at hlt ⊢
    cases hb : s.any (fun v => isNullCell v) with
    | false =>
      have hzero : s.countP (fun v => isNullCell v) = 0 := by
        rw [List.countP_eq_zero]
        rw [List.any_eq_false] at hb
        exact hb
      simp only [check_consecutive_nans_optimized, hany, hb, hzero]
      rfl
    | true =>
      simp only [check_consecutive_nans_optimized, hany, hb,
        count_true_map_isNullCell, if_true]
      rw [if_pos hlt]
  · intro hge
    rw [countP_decide_eq_countP_isNullCell] at hge
    cases hb : s.any (fun v => isNullCell v) with
    | false =>
      have hzero : s.countP (fun v => isNullCell v) = 0 := by
        rw [List.countP_eq_zero]
        rw [List.any_eq_false] at hb
        exact hb
      have hchk : check_consecutive_nans_optimized s t = 0 := by
        simp only [check_consecutive_nans_optimized, hany, hb]
        rfl
      rw [hchk]
      refine ⟨⟨[], [], s, by simp, rfl, by simp⟩, ?_⟩
      intro r hr
      have := hasNullSeg_le_countP hr
      omega
    | true =>
      have hnlt : ¬ ((s.map isNullCell).count true < t) := by
        rw [count_true_map_isNullCell]
        omega
      have hchk : check_consecutive_nans_optimized s t
          = maxRunAux (s.map isNullCell) 0 0 := by
        simp only [check_consecutive_nans_optimized, hany, hb, if_true]
        rw [if_neg hnlt]
      rw [hchk]
      refine ⟨(hasNullSeg_iff_hasTrueSeg _ _).2
        (maxRunAux_top_hasSeg (s.map isNullCell)), ?_⟩
      intro r hr
      exact maxRunAux_top_ge ((hasNullSeg_iff_hasTrueSeg s r).1 hr)

/-- Witness for C3 at a concrete input: a column with runs of 3 and 1 nulls
and threshold 2 takes the run-length-encoding branch and returns 3. -/
theorem C3_gap_length_algorithm_witness :
    (2 : ℕ) ≤ ([Val.num 1, Val.null, Val.null, Val.str "", Val.num 2,
        Val.null]).countP (fun v => decide (v = Val.null ∨ v = Val.str "")) ∧
    (HasNullSeg [Val.num 1, Val.null, Val.null, Val.str "", Val.num 2, Val.null]
        (check_consecutive_nans_optimized
          [Val.num 1, Val.null, Val.null, Val.str "", Val.num 2, Val.null] 2) ∧
      ∀ r, HasNullSeg [Val.num 1, Val.null, Val.null, Val.str "", Val.num 2,
          Val.null] r →
        r ≤ check_consecutive_nans_optimized
          [Val.num 1, Val.null, Val.null, Val.str "", Val.num 2, Val.null] 2) :=
  ⟨by decide, (C3_gap_length_algorithm _ 2).2.2.2 (by decide)⟩

/-- Warning text emitted by `IntegrityValidator.validate` for a column whose
longest null run reaches the gap threshold. -/
def gapWarning (name : String) (k : ℕ) : String :=
  "Kolumna '" ++ name ++ "': " ++ toString k ++ " pustych wierszy z rz\u0119du"

/-- The legacy `IntegrityValidator.validate` pass: for each column, compute the
longest null run via `check_consecutive_nans_optimized` and record a warning
when it reaches `gap_threshold` (`if max_gap >= self.gap_threshold`). -/
def validate (df : Frame) (gap_threshold : ℕ := 10) : List String :=
  df.flatMap (fun c =>
    let max_gap := check_consecutive_nans_optimized c.vals gap_threshold
    if gap_threshold ≤ max_gap then [gapWarning c.name max_gap] else [])

theorem countP_isNullCell_single_run (k : ℕ) (pre suf : List Val)
    (hpre : ∀ v ∈ pre, isNullCell v = false)
    (hsuf : ∀ v ∈ suf, isNullCell v = false) :
    (pre ++ List.replicate k Val.null ++ suf).countP (fun v => isNullCell v)
      = k := by
  have h1 : pre.countP (fun v => isNullCell v) = 0 :=
    List.countP_eq_zero.2 (fun v hv => by rw [hpre v hv]; exact Bool.false_ne_true)
  have h2 : suf.countP (fun v => isNullCell v) = 0 :=
    List.countP_eq_zero.2 (fun v hv => by rw [hsuf v hv]; exact Bool.false_ne_true)
  rw [List.countP_append, List.countP_append, List.countP_replicate, h1, h2]
  simp [isNullCell]

/-- On a column with a single null run of length `k` (bounded by non-null
cells), the gap-length algorithm returns exactly `k` whatever the threshold. -/
theorem check_single_run (k t : ℕ) (pre suf : List Val)
    (hpre : ∀ v ∈ pre, isNullCell v = false)
    (hsuf : ∀ v ∈ suf, isNullCell v = false) :
    check_consecutive_nans_optimized (pre ++ List.replicate k Val.null ++ suf) t
      = k := by
  set vals := pre ++ List.replicate k Val.null ++ suf with hvals
  have hcount : vals.countP (fun v => isNullCell v) = k :=
    countP_isNullCell_single_run k pre suf hpre hsuf
  have hcnt' : (vals.map isNullCell).count true = k := by
    rw [count_true_map_isNullCell]; exact hcount
  have hany : (vals.map isNullCell).any id = vals.any (fun v => isNullCell v) := by
    induction vals with
    | nil => rfl
    | cons x xs ih => simp only [List.map_cons, List.any_cons, ih]; rfl
  cases k with
  | zero =>
    have hfalse : vals.any (fun v => isNullCell v) = false := by
      rw [List.any_eq_false]
      intro v hv hcon
      rw [hvals] at hv
      rcases List.mem_append.1 hv with hv | hv
      · rcases List.mem_append.1 hv with hv | hv
        · rw [hpre v hv] at hcon; exact Bool.false_ne_true hcon
        · simp at hv
      · rw [hsuf v hv] at hcon; exact Bool.false_ne_true hcon
    simp only [check_consecutive_nans_optimized, hany, hfalse]
    rfl
  | succ k' =>
    have htrue : vals.any (fun v => isNullCell v) = true := by
      rw [List.any_eq_true]
      refine ⟨Val.null, ?_, rfl⟩
      rw [hvals]
      exact List.mem_append.2 (Or.inl (List.mem_append.2 (Or.inr
        (List.mem_replicate.2 ⟨Nat.succ_ne_zero k', rfl⟩))))
    have hmask : vals.map isNullCell
        = pre.map isNullCell ++ List.replicate (k' + 1) true
          ++ suf.map isNullCell := by
      rw [hvals, List.map_append, List.map_append, List.map_replicate]
      rfl
    have hrun : maxRunAux (vals.map isNullCell) 0 0 = k' + 1 := by
      apply le_antisymm
      · have h := hasTrueSeg_le_count (maxRunAux_top_hasSeg (vals.map isNullCell))
        rw [hcnt'] at h
        exact h
      · exact maxRunAux_top_ge ⟨pre.map isNullCell, suf.map isNullCell, hmask⟩
    by_cases hlt : (k' + 1) < t
    · simp only [check_consecutive_nans_optimized, hany, htrue, if_true]
      rw [hcnt', if_pos hlt]
    · simp only [check_consecutive_nans_optimized, hany, htrue, if_true]
      rw [hcnt', if_neg hlt]
      exact hrun

/-- Claim C4.  Validating a column that contains exactly `t - 1` consecutive
nulls (and no other nulls) produces no gap warning, while a column containing
a run of exactly `t` consecutive nulls produces exactly one gap warning
naming the column and the run length. -/
theorem C4_gap_warning_boundary (name : String) (t : ℕ) (pre suf : List Val)
    (ht : 0 < t)
    (hpre : ∀ v ∈ pre, isNullCell v = false)
    (hsuf : ∀ v ∈ suf, isNullCell v = false) :
    validate [⟨name, pre ++ List.replicate (t - 1) Val.null ++ suf⟩] t = [] ∧
    validate [⟨name, pre ++ List.replicate t Val.null ++ suf⟩] t
      = [gapWarning name t] := by
  constructor
  · have hchk := check_single_run (t - 1) t pre suf hpre hsuf
    simp only [validate, List.flatMap, List.map, List.flatten, hchk]
    rw [if_neg (by omega)]
    rfl
  · have hchk := check_single_run t t pre suf hpre hsuf
    simp only [validate, List.flatMap, List.map, List.flatten, hchk]
    rw [if_pos (le_refl t)]
    rfl

/-- Witness for C4 at a concrete input: threshold 3, runs of 2 and 3 nulls. -/
theorem C4_gap_warning_boundary_witness :
    ((0 : ℕ) < 3 ∧
      (∀ v ∈ [Val.num 7], isNullCell v = false) ∧
      (∀ v ∈ [Val.num 8], isNullCell v = false)) ∧
    (validate [⟨"watts", [Val.num 7] ++ List.replicate 2 Val.null ++ [Val.num 8]⟩]
        3 = [] ∧
      validate [⟨"watts", [Val.num 7] ++ List.replicate 3 Val.null ++ [Val.num 8]⟩]
        3 = [gapWarning "watts" 3]) :=
  ⟨⟨by decide, by decide, by decide⟩,
    C4_gap_warning_boundary "watts" 3 [Val.num 7] [Val.num 8]
      (by decide) (by decide) (by decide)⟩

/-- Interpolation methods accepted by the interpolation module
(`InterpolationMethod = Literal['none', 'linear', 'ffill', 'bfill', 'pad']`). -/
inductive InterpolationMethod where
  | none : InterpolationMethod
  | linear : InterpolationMethod
  | ffill : InterpolationMethod
  | bfill : InterpolationMethod
  | pad : InterpolationMethod
deriving DecidableEq, Repr

/-- Plain NaN test used by the interpolation module (`series.isna()`; empty
strings play no role on numeric columns). -/
def isna : Val → Bool
  | Val.null => true
  | _ => false

/-- Numeric content of a cell; interpolation only runs on numeric columns,
where every cell is a number or NaN. -/
def cellNum : Val → Option ℚ
  | Val.num q => some q
  | _ => none

/-- Index of the nearest non-NaN cell strictly before `i`, the previous valid
observation pandas interpolation works from. -/
def prevNonNull (xs : List Val) : ℕ → Option ℕ
  | 0 => Option.none
  | i + 1 =>
    if isna (xs.getD i Val.null) then prevNonNull xs i else some i

/-- Index of the nearest non-NaN cell strictly after `i`, the next valid
observation pandas linear interpolation works towards. -/
def nextNonNull (xs : List Val) (i : ℕ) : Option ℕ :=
  (List.range xs.length).find? (fun j => decide (i < j) && !isna (xs.getD j Val.null))

/-- One cell of `Series.interpolate(method='linear', limit=limit)`: a NaN is
filled when it has a previous valid value and sits within the first `limit`
NaNs of its run (forward direction); between two valid values the fill is the
linear interpolant, after the last valid value it is that value, and NaNs
before the first valid value are never filled. -/
def linearCell (limit : ℕ) (xs : List Val) (i : ℕ) : Val :=
  let v := xs.getD i Val.null
  if isna v then
    match prevNonNull xs i with
    | Option.none => Val.null
    | some j =>
      if i - j ≤ limit then
        match nextNonNull xs i with
        | some k =>
          let a := (cellNum (xs.getD j Val.null)).getD 0
          let b := (cellNum (xs.getD k Val.null)).getD 0
          Val.num (a + (b - a) * ((i : ℚ) - (j : ℚ)) / ((k : ℚ) - (j : ℚ)))
        | Option.none => Val.num ((cellNum (xs.getD j Val.null)).getD 0)
      else Val.null
  else v

/-- One cell of `Series.ffill(limit=limit)`. -/
def ffillCell (limit : ℕ) (xs : List Val) (i : ℕ) : Val :=
  let v := xs.getD i Val.null
  if isna v then
    match prevNonNull xs i with
    | Option.none => Val.null
    | some j => if i - j ≤ limit then xs.getD j Val.null else Val.null
  else v

/-- One cell of `Series.bfill(limit=limit)`. -/
def bfillCell (limit : ℕ) (xs : List Val) (i : ℕ) : Val :=
  let v := xs.getD i Val.null
  if isna v then
    match nextNonNull xs i with
    | Option.none => Val.null
    | some k => if k - i ≤ limit then xs.getD k Val.null else Val.null
  else v

/-- Whole-series interpolation with a fill limit: the single-pass branch of
`interpolate_time_gaps` (`interpolate/ffill/bfill` with `limit=max_gap`). -/
def seriesInterpolate (method : InterpolationMethod) (limit : ℕ)
    (xs : List Val) : List Val :=
  match method with
  | InterpolationMethod.linear => (List.range xs.length).map (linearCell limit xs)
  | InterpolationMethod.ffill => (List.range xs.length).map (ffillCell limit xs)
  | InterpolationMethod.pad => (List.range xs.length).map (ffillCell limit xs)
  | InterpolationMethod.bfill => (List.range xs.length).map (bfillCell limit xs)
  | InterpolationMethod.none => xs

/-- Run lengths of consecutive `true` in a mask, accumulator form of
`_get_consecutive_lengths` (cumsum groups, keep the all-`True` ones). -/
def runLengthsAux : List Bool → ℕ → List ℕ
  | [], cur => if cur = 0 then [] else [cur]
  | b :: rest, cur =>
    if b then runLengthsAux rest (cur + 1)
    else if cur = 0 then runLengthsAux rest 0 else cur :: runLengthsAux rest 0

/-- `_get_consecutive_lengths(mask)`. -/
def get_consecutive_lengths (mask : List Bool) : List ℕ :=
  runLengthsAux mask 0

/-- Start of the NaN run containing position `i` (`group.index[0]`). -/
def runStart (xs : List Val) (i : ℕ) : ℕ :=
  match prevNonNull xs i with
  | Option.none => 0
  | some j => j + 1

/-- End of the NaN run containing position `i` (`group.index[-1]`). -/
def runEnd (xs : List Val) (i : ℕ) : ℕ :=
  match nextNonNull xs i with
  | Option.none => xs.length - 1
  | some k => k - 1

/-- Length of the NaN run containing position `i`. -/
def runLen (xs : List Val) (i : ℕ) : ℕ :=
  runEnd xs i + 1 - runStart xs i

/-- `_interpolate_small_gaps`: each NaN run of length at most `max_gap` is
re-interpolated on its own slice `result.loc[start:end]`; that slice holds no
valid observation, so the written values are what the method produces on an
all-NaN slice (no change).  Runs longer than `max_gap` are left untouched. -/
def interpolate_small_gaps (method : InterpolationMethod) (max_gap : ℕ)
    (xs : List Val) : List Val :=
  (List.range xs.length).map (fun i =>
    let v := xs.getD i Val.null
    if isna v then
      if runLen xs i ≤ max_gap then
        let s := runStart xs i
        let slice := (xs.drop s).take (runLen xs i)
        (seriesInterpolate method slice.length slice).getD (i - s) Val.null
      else v
    else v)

/-- Per-column body of `interpolate_time_gaps`: skip columns without NaN;
when every NaN run is within `max_gap`, interpolate the whole column in one
pass with `limit=max_gap`; otherwise fall back to `_interpolate_small_gaps`.
(The guarded Python `max(gap_lengths) <= max_gap if gap_lengths else True` is
`foldr max 0 ≤ max_gap`, the empty fold being 0.) -/
def interpColumn (method : InterpolationMethod) (max_gap : ℕ)
    (xs : List Val) : List Val :=
  let nan_before := xs.countP (fun v => isna v)
  if nan_before = 0 then xs
  else
    let gap_lengths := get_consecutive_lengths (xs.map (fun v => isna v))
    if gap_lengths.foldr max 0 ≤ max_gap then
      seriesInterpolate method max_gap xs
    else
      interpolate_small_gaps method max_gap xs

/-- Numeric dtype test: a numeric column holds only numbers and NaN
(`select_dtypes(include=[np.number])`). -/
def isNumericCol (c : Col) : Bool :=
  c.vals.all (fun v => match v with | Val.str _ => false | _ => true)

/-- `interpolate_time_gaps(df, time_col, method, max_gap, columns)`: method
`'none'` returns the table unchanged with 0 fills; otherwise the column set is
the explicit list or all numeric columns except the time column, each selected
column is interpolated per `interpColumn`, and the fill count is the total
drop in NaN count over the selected columns. -/
def interpolate_time_gaps (df : Frame) (time_col : String := "secs")
    (method : InterpolationMethod := InterpolationMethod.linear)
    (max_gap : ℕ := 5) (columns : Option (List String) := Option.none) :
    Frame × ℕ :=
  match method with
  | InterpolationMethod.none => (df, 0)
  | _ =>
    let cols : List String := match columns with
      | some cs => cs
      | Option.none =>
        ((df.filter (fun c => isNumericCol c)).map (fun c => c.name)).filter
          (fun nm => decide (nm ≠ time_col))
    let out := df.map (fun c =>
      if c.name ∈ cols then ⟨c.name, interpColumn method max_gap c.vals⟩ else c)
    let filled := df.foldr (fun c acc =>
      if c.name ∈ cols then
        acc + (c.vals.countP (fun v => isna v)
          - (interpColumn method max_gap c.vals).countP (fun v => isna v))
      else acc) 0
    (out, filled)

theorem maxRunAux_best (m : List Bool) : ∀ cur best,
    maxRunAux m cur best = max best (maxRunAux m cur 0) := by
  induction m with
  | nil => intro cur best; simp only [maxRunAux]; omega
  | cons b rest ih =>
    intro cur best
    by_cases hb : b = true
    · subst hb
      simp only [maxRunAux, if_pos]
      exact ih (cur + 1) best
    · have hb' : b = false := Bool.eq_false_iff.2 hb
      subst hb'
      simp only [maxRunAux, Bool.false_eq_true, if_false]
      rw [ih 0 (max cur best), ih 0 (max cur 0)]
      omega

theorem foldr_max_runLengthsAux (m : List Bool) : ∀ cur,
    (runLengthsAux m cur).foldr max 0 = maxRunAux m cur 0 := by
  induction m with
  | nil =>
    intro cur
    by_cases hc : cur = 0
    · subst hc; rfl
    · simp only [runLengthsAux, if_neg hc, maxRunAux, List.foldr_cons,
        List.foldr_nil]
  | cons b rest ih =>
    intro cur
    by_cases hb : b = true
    · subst hb
      simp only [runLengthsAux, maxRunAux, if_pos]
      exact ih (cur + 1)
    · have hb' : b = false := Bool.eq_false_iff.2 hb
      subst hb'
      simp only [runLengthsAux, maxRunAux, Bool.false_eq_true, if_false]
      by_cases hc : cur = 0
      · subst hc
        rw [if_pos rfl, ih 0]
        rfl
      · rw [if_neg hc, List.foldr_cons, ih 0, maxRunAux_best rest 0 (max cur 0)]
        omega

theorem prevNonNull_none {xs : List Val} : ∀ {i}, prevNonNull xs i = Option.none →
    ∀ m, m < i → isna (xs.getD m Val.null) = true := by
  intro i
  induction i with
  | zero => intro _ m hm; omega
  | succ i' ih =>
    intro h m hm
    rw [prevNonNull] at h
    by_cases hna : isna (xs.getD i' Val.null) = true
    · rw [if_pos hna] at h
      rcases Nat.lt_succ_iff_lt_or_eq.1 hm with hm' | hm'
      · exact ih h m hm'
      · subst hm'; exact hna
    · rw [if_neg hna] at h
      cases h

theorem prevNonNull_some {xs : List Val} : ∀ {i j}, prevNonNull xs i = some j →
    j < i ∧ isna (xs.getD j Val.null) = false ∧
      ∀ m, j < m → m < i → isna (xs.getD m Val.null) = true := by
  intro i
  induction i with
  | zero => intro j h; cases h
  | succ i' ih =>
    intro j h
    rw [prevNonNull] at h
    by_cases hna : isna (xs.getD i' Val.null) = true
    · rw [if_pos hna] at h
      rcases ih h with ⟨h1, h2, h3⟩
      refine ⟨Nat.lt_succ_of_lt h1, h2, ?_⟩
      intro m hm1 hm2
      rcases Nat.lt_succ_iff_lt_or_eq.1 hm2 with hm' | hm'
      · exact h3 m hm1 hm'
      · subst hm'; exact hna
    · rw [if_neg hna] at h
      cases h
      exact ⟨Nat.lt_succ_self _, Bool.eq_false_iff.2 hna, fun m hm1 hm2 => by omega⟩

theorem nextNonNull_some {xs : List Val} {i k : ℕ}
    (h : nextNonNull xs i = some k) :
    i < k ∧ k < xs.length ∧ isna (xs.getD k Val.null) = false := by
  have hp := List.find?_some h
  have hm := List.mem_of_find?_eq_some h
  rw [List.mem_range] at hm
  simp only [Bool.and_eq_true, decide_eq_true_eq, Bool.not_eq_true'] at hp
  exact ⟨hp.1, hm, hp.2⟩

theorem getD_take_drop {ys : List Val} {a L t : ℕ} (ht : t < L) :
    ((ys.drop a).take L).getD t Val.null = ys.getD (a + t) Val.null := by
  rw [List.getD_eq_getElem?_getD, List.getD_eq_getElem?_getD,
    List.getElem?_take, if_pos ht, List.getElem?_drop]

theorem mem_take_drop {ys : List Val} {a L : ℕ}
    {v : Val} (hv : v ∈ (ys.drop a).take L) :
    ∃ t, t < L ∧ ys.getD (a + t) Val.null = v := by
  rcases List.mem_iff_getElem?.1 hv with ⟨t, hget⟩
  have ht : t < L := by
    by_contra hcon
    rw [List.getElem?_take, if_neg hcon] at hget
    cases hget
  refine ⟨t, ht, ?_⟩
  rw [← getD_take_drop ht, List.getD_eq_getElem?_getD, hget]
  rfl

theorem countP_ge_mid {p : Val → Bool} {ys : List Val} {a L : ℕ}
    (hlen : a + L ≤ ys.length)
    (hmid : ∀ t, t < L → p (ys.getD (a + t) Val.null) = true) :
    L ≤ ys.countP p := by
  have hdecomp : ys = ys.take a ++ ((ys.drop a).take L ++ (ys.drop a).drop L) := by
    rw [List.take_append_drop, List.take_append_drop]
  have hmidlen : ((ys.drop a).take L).length = L := by
    rw [List.length_take, List.length_drop]
    omega
  have hcnt : ((ys.drop a).take L).countP p = L := by
    have hall : ∀ v ∈ (ys.drop a).take L, p v := by
      intro v hv
      rcases mem_take_drop hv with ⟨t, ht, hvalue⟩
      rw [← hvalue]
      exact hmid t ht
    exact (List.countP_eq_length.2 hall).trans hmidlen
  calc L = ((ys.drop a).take L).countP p := hcnt.symm
    _ ≤ ys.countP p := by
        conv_rhs => rw [hdecomp]
        rw [List.countP_append, List.countP_append]
        omega

theorem getD_append_mid {pre run suf : List Val} {t : ℕ} (ht : t < run.length) :
    (pre ++ run ++ suf).getD (pre.length + t) Val.null = run.getD t Val.null := by
  rw [List.getD_eq_getElem?_getD, List.getD_eq_getElem?_getD, List.append_assoc,
    List.getElem?_append_right (by omega), Nat.add_sub_cancel_left,
    List.getElem?_append_left ht]

theorem length_seriesInterpolate_linear (g : ℕ) (xs : List Val) :
    (seriesInterpolate InterpolationMethod.linear g xs).length = xs.length := by
  simp [seriesInterpolate]

theorem getD_map_range {f : ℕ → Val} {n i : ℕ} (hi : i < n) :
    (((List.range n).map f).getD i Val.null) = f i := by
  rw [List.getD_eq_getElem?_getD, List.getElem?_map, List.getElem?_range hi]
  rfl

/-- With every NaN run within `max_gap` and a valid leading observation, the
single-pass linear branch of `interpColumn` leaves no NaN at all. -/
theorem interpColumn_linear_fills (g : ℕ) (xs : List Val)
    (hfirst : isna (xs.getD 0 Val.null) = false)
    (hruns : ∀ pre mid suf, xs = pre ++ mid ++ suf →
      (∀ v ∈ mid, isna v = true) → mid.length ≤ g) :
    (interpColumn InterpolationMethod.linear g xs).countP (fun v => isna v)
      = 0 := by
  by_cases hz : xs.countP (fun v => isna v) = 0
  · simp only [interpColumn, if_pos hz]
    exact hz
  · have hmax : maxRunAux (xs.map (fun v => isna v)) 0 0 ≤ g := by
      rcases (hasTrueSeg_map_iff (fun v => isna v) xs _).1
        (maxRunAux_top_hasSeg (xs.map (fun v => isna v))) with
        ⟨pre, mid, suf, heq, hlen, hmem⟩
      rw [← hlen]
      exact hruns pre mid suf heq hmem
    have hbranch : (get_consecutive_lengths
        (xs.map (fun v => isna v))).foldr max 0 ≤ g := by
      rw [get_consecutive_lengths, foldr_max_runLengthsAux]
      exact hmax
    simp only [interpColumn, if_neg hz, if_pos hbranch]
    rw [List.countP_eq_zero]
    intro v hv
    rcases List.mem_map.1 hv with ⟨i, hi, hival⟩
    rw [List.mem_range] at hi
    rw [← hival]
    by_cases hna : isna (xs.getD i Val.null) = true
    · have hipos : 0 < i := by
        rcases Nat.eq_zero_or_pos i with h0 | h0
        · subst h0; rw [hna] at hfirst; cases hfirst
        · exact h0
      cases hprev : prevNonNull xs i with
      | none =>
        exfalso
        have := prevNonNull_none hprev 0 hipos
        rw [this] at hfirst
        cases hfirst
      | some j =>
        rcases prevNonNull_some hprev with ⟨hj1, _hj2, hj3⟩
        have hfill : i - j ≤ g := by
          have hmid : ∀ t, t < i - j →
              isna (xs.getD (j + 1 + t) Val.null) = true := by
            intro t ht
            rcases Nat.lt_or_ge (j + 1 + t) i with hlt | hge
            · exact hj3 (j + 1 + t) (by omega) hlt
            · have : j + 1 + t = i := by omega
              rw [this]
              exact hna
          have hdecomp : xs = xs.take (j + 1)
              ++ ((xs.drop (j + 1)).take (i - j))
              ++ (xs.drop (j + 1)).drop (i - j) := by
            rw [List.append_assoc, List.take_append_drop, List.take_append_drop]
          have hlen2 : ((xs.drop (j + 1)).take (i - j)).length = i - j := by
            rw [List.length_take, List.length_drop]
            omega
          have hmem2 : ∀ v ∈ (xs.drop (j + 1)).take (i - j), isna v = true := by
            intro v hv2
            rcases mem_take_drop hv2 with ⟨t, ht, hvalue⟩
            rw [← hvalue]
            exact hmid t ht
          have := hruns _ _ _ hdecomp hmem2
          rw [hlen2] at this
          exact this
        have hnum : ∃ q, linearCell g xs i = Val.num q := by
          simp only [linearCell, if_pos hna, hprev, if_pos hfill]
          cases hnext : nextNonNull xs i with
          | none => exact ⟨_, rfl⟩
          | some k => exact ⟨_, rfl⟩
        rcases hnum with ⟨q, hq⟩
        rw [hq]
        simp [isna]
    · have hcell : linearCell g xs i = xs.getD i Val.null := by
        simp only [linearCell, if_neg hna]
      rw [hcell]
      exact hna

/-- A NaN run longer than `max_gap` is left entirely unfilled; in particular
at least its full length in NaN cells survives interpolation. -/
theorem interpColumn_keeps_long_run (method : InterpolationMethod) (g : ℕ)
    (xs pre run suf : List Val)
    (heq : xs = pre ++ run ++ suf)
    (hnull : ∀ v ∈ run, isna v = true)
    (hlen : g < run.length) :
    run.length ≤ (interpColumn method g xs).countP (fun v => isna v) := by
  have hxslen : pre.length + run.length ≤ xs.length := by
    rw [heq]
    simp only [List.length_append]
    omega
  have hrunNull : ∀ m, pre.length ≤ m → m < pre.length + run.length →
      isna (xs.getD m Val.null) = true := by
    intro m hm1 hm2
    have hm : m = pre.length + (m - pre.length) := by omega
    rw [heq, hm, getD_append_mid (by omega)]
    have : run.getD (m - pre.length) Val.null ∈ run := by
      rw [List.getD_eq_getElem?_getD,
        List.getElem?_eq_getElem (by omega : m - pre.length < run.length)]
      exact List.getElem_mem _
    exact hnull _ this
  have hz : ¬ xs.countP (fun v => isna v) = 0 := by
    intro hcon
    have : run.length ≤ xs.countP (fun v => isna v) :=
      countP_ge_mid hxslen (fun t ht =>
        hrunNull (pre.length + t) (by omega) (by omega))
    omega
  have hbig : ¬ ((get_consecutive_lengths
      (xs.map (fun v => isna v))).foldr max 0 ≤ g) := by
    rw [get_consecutive_lengths, foldr_max_runLengthsAux]
    have : run.length ≤ maxRunAux (xs.map (fun v => isna v)) 0 0 :=
      maxRunAux_top_ge ((hasTrueSeg_map_iff (fun v => isna v) xs _).2
        ⟨pre, run, suf, heq, rfl, hnull⟩)
    omega
  simp only [interpColumn, if_neg hz, if_neg hbig]
  have hreslen : (interpolate_small_gaps method g xs).length = xs.length := by
    simp [interpolate_small_gaps]
  refine @countP_ge_mid (fun v => isna v) (interpolate_small_gaps method g xs)
    pre.length run.length (by omega) ?_
  intro t ht
  have hidx : pre.length + t < xs.length := by omega
  have hcell : (interpolate_small_gaps method g xs).getD (pre.length + t)
      Val.null = xs.getD (pre.length + t) Val.null := by
    rw [interpolate_small_gaps, getD_map_range hidx]
    have hna := hrunNull (pre.length + t) (by omega) (by omega)
    rw [if_pos hna]
    have hrl : ¬ (runLen xs (pre.length + t) ≤ g) := by
      have hstart : runStart xs (pre.length + t) ≤ pre.length := by
        cases hprev : prevNonNull xs (pre.length + t) with
        | none => simp only [runStart, hprev]; omega
        | some j =>
          rcases prevNonNull_some hprev with ⟨hj1, hj2, _⟩
          have hjlt : j < pre.length := by
            by_contra hcon
            rw [hrunNull j (by omega) (by omega)] at hj2
            cases hj2
          simp only [runStart, hprev]
          omega
      have hend : pre.length + run.length - 1 ≤ runEnd xs (pre.length + t) := by
        cases hnext : nextNonNull xs (pre.length + t) with
        | none => simp only [runEnd, hnext]; omega
        | some k =>
          rcases nextNonNull_some hnext with ⟨hk1, hk2, hk3⟩
          have hkge : pre.length + run.length ≤ k := by
            by_contra hcon
            rw [hrunNull k (by omega) (by omega)] at hk3
            cases hk3
          simp only [runEnd, hnext]
          omega
      rw [runLen]
      omega
    rw [if_neg hrl]
  rw [hcell]
  exact hrunNull (pre.length + t) (by omega) (by omega)

theorem runs_le_of_maxRun {xs : List Val} {g : ℕ}
    (h : maxRunAux (xs.map (fun v => isna v)) 0 0 ≤ g) :
    ∀ pre mid suf, xs = pre ++ mid ++ suf →
      (∀ v ∈ mid, isna v = true) → mid.length ≤ g := by
  intro pre mid suf heq hmem
  have hseg : HasTrueSeg (xs.map fun v => isna v) mid.length :=
    (hasTrueSeg_map_iff _ _ _).2 ⟨pre, mid, suf, heq, rfl, hmem⟩
  exact le_trans (maxRunAux_top_ge hseg) h

theorem lookupCol_interpolate_some_cols (df : Frame) (tc : String)
    (method : InterpolationMethod) (g : ℕ) (cols : List String) (n : String)
    (hm : method ≠ InterpolationMethod.none) :
    lookupCol (interpolate_time_gaps df tc method g (some cols)).1 n
      = (df.find? (fun c => c.name == n)).map
          (fun c => if c.name ∈ cols then interpColumn method g c.vals
            else c.vals) := by
  have hout : (interpolate_time_gaps df tc method g (some cols)).1
      = df.map (fun c => if c.name ∈ cols
          then ⟨c.name, interpColumn method g c.vals⟩ else c) := by
    cases method with
    | none => exact absurd rfl hm
    | linear => rfl
    | ffill => rfl
    | bfill => rfl
    | pad => rfl
  rw [hout, lookupCol, List.find?_map]
  have hpred : ((fun c : Col => c.name == n) ∘ (fun c : Col => if c.name ∈ cols
      then ⟨c.name, interpColumn method g c.vals⟩ else c))
      = fun c : Col => c.name == n := by
    funext c
    by_cases hc : c.name ∈ cols <;> simp [hc]
  rw [hpred, Option.map_map]
  cases hfind : df.find? (fun c => c.name == n) with
  | none => rfl
  | some c =>
    simp only [Option.map_some']
    by_cases hc : c.name ∈ cols <;> simp [Function.comp, hc]

/-- Counterexample to claim C5 as stated: a numeric column `watts` whose only
null run has length 1 is interpolated with `max_gap = 1` (default linear
method), yet its leading NaN survives — pandas linear interpolation never
fills NaN before the first valid observation. -/
theorem C5_interpolation_counterexample :
    List.foldr max 0 (get_consecutive_lengths
        ([Val.null, Val.num 1].map (fun v => isna v))) = 1 ∧
    lookupCol (interpolate_time_gaps
        [⟨"secs", [Val.num 0, Val.num 1]⟩, ⟨"watts", [Val.null, Val.num 1]⟩]
        "secs" InterpolationMethod.linear 1 Option.none).1 "watts"
      = some [Val.null, Val.num 1] := by
  constructor <;> decide

/-- Claim C5 (amended).  For `interpolate_time_gaps` with `max_gap = g` and
the default linear method, a selected column whose leading cell is a valid
observation and whose null runs all have length at most `g` ends with zero
nulls; and a column containing a null run longer than `g` keeps at least
`run_length - g` nulls (in fact the whole run).  The amendment restricts the
zero-null statement to columns that do not start with a null: a leading null
run is never filled by the forward linear pass. -/
theorem C5_bounded_gap_interpolation (df : Frame) (tc : String) (g : ℕ)
    (n : String) (xs : List Val) (cols : List String)
    (hlk : lookupCol df n = some xs) (hmem : n ∈ cols) :
    ((isna (xs.getD 0 Val.null) = false ∧
      (∀ pre mid suf, xs = pre ++ mid ++ suf →
        (∀ v ∈ mid, isna v = true) → mid.length ≤ g)) →
      ∃ ys, lookupCol (interpolate_time_gaps df tc InterpolationMethod.linear g
          (some cols)).1 n = some ys ∧
        ys.countP (fun v => isna v) = 0) ∧
    (∀ pre run suf, xs = pre ++ run ++ suf →
      (∀ v ∈ run, isna v = true) → g < run.length →
      ∃ ys, lookupCol (interpolate_time_gaps df tc InterpolationMethod.linear g
          (some cols)).1 n = some ys ∧
        run.length - g ≤ ys.countP (fun v => isna v)) := by
  rcases Option.map_eq_some'.1 hlk with ⟨c0, hc0, hc0v⟩
  have hname : c0.name = n := (find?_name_eq hc0).2
  have hlkres : lookupCol (interpolate_time_gaps df tc
      InterpolationMethod.linear g (some cols)).1 n
      = some (interpColumn InterpolationMethod.linear g xs) := by
    rw [lookupCol_interpolate_some_cols df tc _ g cols n (by intro h; cases h),
      hc0, Option.map_some']
    rw [if_pos (by rw [hname]; exact hmem), hc0v]
  constructor
  · rintro ⟨hfirst, hruns⟩
    exact ⟨interpColumn InterpolationMethod.linear g xs, hlkres,
      interpColumn_linear_fills g xs hfirst hruns⟩
  · intro pre run suf heq hnull hlen
    refine ⟨interpColumn InterpolationMethod.linear g xs, hlkres, ?_⟩
    have := interpColumn_keeps_long_run InterpolationMethod.linear g
      xs pre run suf heq hnull hlen
    omega

/-- Witness for C5 (amended) at concrete inputs: with `g = 2`, the column
`[100, NaN, NaN, 160]` is fully filled, and `[100, NaN, NaN, NaN, 170]`
(run of 3) keeps at least 1 null. -/
theorem C5_bounded_gap_interpolation_witness :
    (∃ ys, lookupCol (interpolate_time_gaps
        [⟨"secs", [Val.num 0, Val.num 1, Val.num 2, Val.num 3]⟩,
         ⟨"watts", [Val.num 100, Val.null, Val.null, Val.num 160]⟩]
        "secs" InterpolationMethod.linear 2 (some ["watts"])).1 "watts"
        = some ys ∧ ys.countP (fun v => isna v) = 0) ∧
    (∃ ys, lookupCol (interpolate_time_gaps
        [⟨"secs", [Val.num 0, Val.num 1, Val.num 2, Val.num 3, Val.num 4]⟩,
         ⟨"watts", [Val.num 100, Val.null, Val.null, Val.null, Val.num 170]⟩]
        "secs" InterpolationMethod.linear 2 (some ["watts"])).1 "watts"
        = some ys ∧ (3 : ℕ) - 2 ≤ ys.countP (fun v => isna v)) :=
  ⟨(C5_bounded_gap_interpolation _ "secs" 2 "watts"
      [Val.num 100, Val.null, Val.null, Val.num 160] ["watts"]
      (by decide) (by decide)).1 ⟨by decide, runs_le_of_maxRun (by decide)⟩,
   (C5_bounded_gap_interpolation _ "secs" 2 "watts"
      [Val.num 100, Val.null, Val.null, Val.null, Val.num 170] ["watts"]
      (by decide) (by decide)).2 [Val.num 100] (List.replicate 3 Val.null)
      [Val.num 170] (by decide) (by decide) (by decide)⟩

/-- Error kinds of the `TimestampError` exception raised by
`validate_timestamps`. -/
inductive TsErrorType where
  | negative : TsErrorType
  | non_monotonic : TsErrorType
deriving DecidableEq, Repr

/-- The `TimestampError` exception: kind and offending column. -/
structure TimestampError where
  error_type : TsErrorType
  column : String
deriving DecidableEq, Repr

/-- Numeric coercion of a cell (`pd.to_numeric(..., errors="coerce")`); cells
holding parseable numeric text are modelled as already-parsed `num` cells, so
everything non-numeric coerces to NaN. -/
def toNumericCell : Val → Option ℚ
  | Val.num q => some q
  | _ => Option.none

/-- `(time_series < 0).sum()`: NaN compares false, so only negative numbers
count. -/
def negCount (ts : List (Option ℚ)) : ℕ :=
  ts.countP (fun t => match t with
    | some q => decide (q < 0)
    | Option.none => false)

/-- `(time_series.diff() < 0).sum()`: a diff is negative exactly when two
adjacent cells are both numbers and the later one is smaller; any NaN makes
the diff NaN, which compares false. -/
def decCount : List (Option ℚ) → ℕ
  | [] => 0
  | [_] => 0
  | Option.some a :: Option.some b :: rest =>
    (if b < a then 1 else 0) + decCount (Option.some b :: rest)
  | _ :: b :: rest => decCount (b :: rest)

/-- Row index of the first negative diff (`diff[diff < 0].index[0]`). -/
def firstDecreaseIdx (ts : List (Option ℚ)) : ℕ :=
  ((List.range ts.length).find? (fun i =>
    decide (0 < i) &&
      (match ts.getD (i - 1) Option.none, ts.getD i Option.none with
        | some a, some b => decide (b < a)
        | _, _ => false))).getD 0

/-- `time_series.duplicated().sum()`: an entry is a duplicate when an equal
entry (NaN equal to NaN included) appears at a smaller index. -/
def dupCount (ts : List (Option ℚ)) : ℕ :=
  (List.range ts.length).countP (fun i =>
    (List.range i).any (fun j =>
      decide (ts.getD j Option.none = ts.getD i Option.none)))

/-- Negative-values warning text. -/
def negMsg (col : String) (cnt : ℕ) : String :=
  "Kolumna '" ++ col ++ "': " ++ toString cnt ++ " warto\u015bci ujemnych"

/-- Non-monotonic warning text. -/
def monoMsg (col : String) (cnt idx : ℕ) : String :=
  "Kolumna '" ++ col ++ "': warto\u015bci malej\u0105 " ++ toString cnt
    ++ "x (pierwsze w wierszu " ++ toString idx ++ ")"

/-- Duplicate-values warning text. -/
def dupMsg (col : String) (cnt : ℕ) : String :=
  "Kolumna '" ++ col ++ "': " ++ toString cnt ++ " zduplikowanych warto\u015bci"

/-- `IntegrityValidator.validate_timestamps`: with the column absent the
function returns no warnings; otherwise the negative check and the monotonic
check each raise `TimestampError` under `fail_fast` and append one warning
otherwise, while the duplicate check only ever appends a warning — its branch
has no `fail_fast` raise in the source. -/
def validate_timestamps (df : Frame) (fail_fast : Bool)
    (time_column : String := "secs")
    (check_monotonic : Bool := true) (check_duplicates : Bool := true)
    (check_negative : Bool := true) :
    Except TimestampError (List String) :=
  match lookupCol df time_column with
  | Option.none => Except.ok []
  | some vals =>
    let ts := vals.map toNumericCell
    if check_negative = true ∧ 0 < negCount ts ∧ fail_fast = true then
      Except.error ⟨TsErrorType.negative, time_column⟩
    else
      let ws1 : List String :=
        if check_negative = true ∧ 0 < negCount ts
        then [negMsg time_column (negCount ts)] else []
      if check_monotonic = true ∧ 0 < decCount ts ∧ fail_fast = true then
        Except.error ⟨TsErrorType.non_monotonic, time_column⟩
      else
        let ws2 : List String :=
          if check_monotonic = true ∧ 0 < decCount ts
          then [monoMsg time_column (decCount ts) (firstDecreaseIdx ts)] else []
        let ws3 : List String :=
          if check_duplicates = true ∧ 0 < dupCount ts
          then [dupMsg time_column (dupCount ts)] else []
        Except.ok (ws1 ++ ws2 ++ ws3)

theorem negCount_pos_iff (ts : List (Option ℚ)) :
    0 < negCount ts ↔ ∃ q, some q ∈ ts ∧ q < 0 := by
  rw [negCount, List.countP_pos_iff]
  constructor
  · rintro ⟨t, ht, hp⟩
    cases t with
    | none => simp at hp
    | some q =>
      refine ⟨q, ht, ?_⟩
      simpa using hp
  · rintro ⟨q, hq, hneg⟩
    exact ⟨some q, hq, by simpa using hneg⟩

theorem decCount_pos_iff : ∀ (ts : List (Option ℚ)),
    0 < decCount ts ↔
      ∃ l1 a b l2, ts = l1 ++ Option.some a :: Option.some b :: l2 ∧ b < a
  | [] => by
    constructor
    · intro h; exact absurd h (by decide)
    · rintro ⟨l1, a, b, l2, heq, _⟩
      have hl := congrArg List.length heq
      simp only [List.length_nil, List.length_append, List.length_cons] at hl
      omega
  | [x] => by
    constructor
    · intro h; exact absurd h (by simp [decCount])
    · rintro ⟨l1, a, b, l2, heq, _⟩
      have hl := congrArg List.length heq
      simp only [List.length_cons, List.length_nil, List.length_append] at hl
      omega
  | Option.some a :: Option.some b :: rest => by
    have hred : decCount (Option.some a :: Option.some b :: rest)
        = (if b < a then 1 else 0) + decCount (Option.some b :: rest) := rfl
    rw [hred]
    have ih := decCount_pos_iff (Option.some b :: rest)
    constructor
    · intro h
      by_cases hba : b < a
      · exact ⟨[], a, b, rest, rfl, hba⟩
      · rw [if_neg hba] at h
        simp only [Nat.zero_add] at h
        rcases ih.1 h with ⟨l1, a', b', l2, heq, hlt⟩
        exact ⟨Option.some a :: l1, a', b', l2, by rw [heq]; rfl, hlt⟩
    · rintro ⟨l1, a', b', l2, heq, hlt⟩
      cases l1 with
      | nil =>
        simp only [List.nil_append, List.cons.injEq, Option.some.injEq] at heq
        rw [if_pos (by rw [heq.1, heq.2.1]; exact hlt)]
        omega
      | cons y l1' =>
        simp only [List.cons_append, List.cons.injEq] at heq
        have : 0 < decCount (Option.some b :: rest) :=
          ih.2 ⟨l1', a', b', l2, heq.2, hlt⟩
        omega
  | Option.none :: b :: rest => by
    have hred : decCount (Option.none :: b :: rest) = decCount (b :: rest) := rfl
    rw [hred]
    have ih := decCount_pos_iff (b :: rest)
    rw [ih]
    constructor
    · rintro ⟨l1, a', b', l2, heq, hlt⟩
      exact ⟨Option.none :: l1, a', b', l2, by rw [heq]; rfl, hlt⟩
    · rintro ⟨l1, a', b', l2, heq, hlt⟩
      cases l1 with
      | nil => simp at heq
      | cons y l1' =>
        simp only [List.cons_append, List.cons.injEq] at heq
        exact ⟨l1', a', b', l2, heq.2, hlt⟩
  | Option.some a :: Option.none :: rest => by
    have hred : decCount (Option.some a :: Option.none :: rest)
        = decCount (Option.none :: rest) := rfl
    rw [hred]
    have ih := decCount_pos_iff (Option.none :: rest)
    rw [ih]
    constructor
    · rintro ⟨l1, a', b', l2, heq, hlt⟩
      exact ⟨Option.some a :: l1, a', b', l2, by rw [heq]; rfl, hlt⟩
    · rintro ⟨l1, a', b', l2, heq, hlt⟩
      cases l1 with
      | nil => simp at heq
      | cons y l1' =>
        simp only [List.cons_append, List.cons.injEq] at heq
        exact ⟨l1', a', b', l2, heq.2, hlt⟩

theorem dupCount_pos_iff (ts : List (Option ℚ)) :
    0 < dupCount ts ↔
      ∃ i j, j < i ∧ i < ts.length ∧
        ts.getD j Option.none = ts.getD i Option.none := by
  rw [dupCount, List.countP_pos_iff]
  constructor
  · rintro ⟨i, hi, hp⟩
    rw [List.mem_range] at hi
    rcases List.any_eq_true.1 hp with ⟨j, hj, hjp⟩
    rw [List.mem_range] at hj
    exact ⟨i, j, hj, hi, of_decide_eq_true hjp⟩
  · rintro ⟨i, j, hji, hi, heq⟩
    refine ⟨i, List.mem_range.2 hi, List.any_eq_true.2
      ⟨j, List.mem_range.2 hji, decide_eq_true heq⟩⟩

/-- Counterexample to claim C7 as stated: in fail-fast mode a time column
with only duplicate values does not raise — the duplicate branch of
`validate_timestamps` has no `fail_fast` raise, it always just appends a
warning. -/
theorem C7_duplicates_counterexample :
    validate_timestamps [⟨"secs", [Val.num 1, Val.num 1]⟩] true "secs"
      true true true = Except.ok [dupMsg "secs" 1] := rfl

/-- Claim C7 (amended).  Negative values, non-monotonic decreases and
duplicate values are detected independently (the three count predicates are
characterized against the column's contents); in accumulate mode each failing
check contributes exactly one warning; in fail-fast mode a negative value
raises `TimestampError(negative)`, otherwise a decrease raises
`TimestampError(non_monotonic)`, while duplicates never raise and still only
produce their warning. -/
theorem C7_timestamp_checks (df : Frame) (col : String) (vals : List Val)
    (hlk : lookupCol df col = some vals) :
    (0 < negCount (vals.map toNumericCell) ↔
      ∃ q, some q ∈ vals.map toNumericCell ∧ q < 0) ∧
    (0 < decCount (vals.map toNumericCell) ↔
      ∃ l1 a b l2, vals.map toNumericCell
        = l1 ++ Option.some a :: Option.some b :: l2 ∧ b < a) ∧
    (0 < dupCount (vals.map toNumericCell) ↔
      ∃ i j, j < i ∧ i < (vals.map toNumericCell).length ∧
        (vals.map toNumericCell).getD j Option.none
          = (vals.map toNumericCell).getD i Option.none) ∧
    (∃ ws, validate_timestamps df false col true true true = Except.ok ws ∧
      ws.length = (if 0 < negCount (vals.map toNumericCell) then 1 else 0)
        + (if 0 < decCount (vals.map toNumericCell) then 1 else 0)
        + (if 0 < dupCount (vals.map toNumericCell) then 1 else 0)) ∧
    (0 < negCount (vals.map toNumericCell) →
      validate_timestamps df true col true true true
        = Except.error ⟨TsErrorType.negative, col⟩) ∧
    (negCount (vals.map toNumericCell) = 0 →
      0 < decCount (vals.map toNumericCell) →
      validate_timestamps df true col true true true
        = Except.error ⟨TsErrorType.non_monotonic, col⟩) ∧
    (negCount (vals.map toNumericCell) = 0 →
      decCount (vals.map toNumericCell) = 0 →
      ∃ ws, validate_timestamps df true col true true true = Except.ok ws ∧
        ws.length = (if 0 < dupCount (vals.map toNumericCell) then 1 else 0)) := by
  set ts := vals.map toNumericCell with hts
  refine ⟨negCount_pos_iff ts, decCount_pos_iff ts, dupCount_pos_iff ts,
    ?_, ?_, ?_, ?_⟩
  · have h4 : validate_timestamps df false col true true true
        = Except.ok ((if 0 < negCount ts then [negMsg col (negCount ts)] else [])
          ++ ((if 0 < decCount ts
              then [monoMsg col (decCount ts) (firstDecreaseIdx ts)] else [])
            ++ (if 0 < dupCount ts then [dupMsg col (dupCount ts)] else []))) := by
      simp only [validate_timestamps, hlk, ← hts]
      simp
    refine ⟨_, h4, ?_⟩
    by_cases h1 : 0 < negCount ts <;> by_cases h2 : 0 < decCount ts <;>
      by_cases h3 : 0 < dupCount ts <;>
      simp [h1, h2, h3]
  · intro hneg
    simp only [validate_timestamps, hlk, ← hts]
    rw [if_pos ⟨trivial, hneg, trivial⟩]
  · intro hneg hdec
    simp only [validate_timestamps, hlk, ← hts]
    rw [if_neg (by rintro ⟨_, h, _⟩; omega), if_pos ⟨trivial, hdec, trivial⟩]
  · intro hneg hdec
    simp only [validate_timestamps, hlk, ← hts]
    rw [if_neg (by rintro ⟨_, h, _⟩; omega),
      if_neg (by rintro ⟨_, h, _⟩; omega)]
    refine ⟨_, rfl, ?_⟩
    rw [if_neg (by rintro ⟨_, h⟩; omega), if_neg (by rintro ⟨_, h⟩; omega)]
    by_cases h3 : 0 < dupCount ts
    · rw [if_pos ⟨trivial, h3⟩, if_pos h3]
      rfl
    · rw [if_neg (by rintro ⟨_, h⟩; exact h3 h), if_neg h3]
      rfl

/-- Witness for C7 (amended) at a concrete input: a negative time value under
fail-fast raises the negative-timestamp error. -/
theorem C7_timestamp_checks_witness :
    lookupCol [⟨"secs", [Val.num (-1), Val.num 1]⟩] "secs"
      = some [Val.num (-1), Val.num 1] ∧
    0 < negCount ([Val.num (-1), Val.num 1].map toNumericCell) ∧
    validate_timestamps [⟨"secs", [Val.num (-1), Val.num 1]⟩] true "secs"
      true true true = Except.error ⟨TsErrorType.negative, "secs"⟩ :=
  ⟨by decide, by decide,
    (C7_timestamp_checks _ "secs" [Val.num (-1), Val.num 1]
      (by decide)).2.2.2.2.1 (by decide)⟩

theorem shiftUp_length (k : ℕ) (vs : List Val) :
    (shiftUp k vs).length = vs.length := by
  simp only [shiftUp, List.length_append, List.length_drop,
    List.length_replicate]
  omega

theorem shiftUp_getD_lt {k : ℕ} {vs : List Val} {i : ℕ}
    (h : i + k < vs.length) :
    (shiftUp k vs).getD i Val.null = vs.getD (i + k) Val.null := by
  rw [shiftUp, List.getD_eq_getElem?_getD,
    List.getElem?_append_left (by rw [List.length_drop]; omega),
    List.getElem?_drop, List.getD_eq_getElem?_getD, Nat.add_comm k i]

theorem shiftUp_getD_ge {k : ℕ} {vs : List Val} {i : ℕ}
    (h1 : vs.length ≤ i + k) (h2 : i < vs.length) :
    (shiftUp k vs).getD i Val.null = Val.null := by
  rw [shiftUp, List.getD_eq_getElem?_getD,
    List.getElem?_append_right (by rw [List.length_drop]; omega),
    List.length_drop, List.getElem?_replicate,
    if_pos (by omega)]
  rfl

/-- Claim C8.  The head trim returns the table unchanged when confirmation is
declined or when the first row is already complete; when confirmed with the
first complete row at position `k > 0`, the column count is unchanged and,
column by column, names and lengths (hence the row count) are preserved, time
columns keep exactly their original values, and every non-time column is
shifted up by exactly `k` rows with NaN padding at the tail. -/
theorem C8_head_trim (df : Frame) (confirm : Bool) (k : ℕ) :
    (trimHead df false = df) ∧
    (firstCompleteRow df = some 0 → trimHead df confirm = df) ∧
    (firstCompleteRow df = some k → 0 < k →
      ((trimHead df true).length = df.length ∧
        ∀ j, j < df.length →
          ((trimHead df true).getD j default).name = (df.getD j default).name ∧
          ((trimHead df true).getD j default).vals.length
            = (df.getD j default).vals.length ∧
          (isTimeCol (df.getD j default).name = true →
            ((trimHead df true).getD j default).vals
              = (df.getD j default).vals) ∧
          (isTimeCol (df.getD j default).name = false →
            (∀ i, i + k < (df.getD j default).vals.length →
              ((trimHead df true).getD j default).vals.getD i Val.null
                = (df.getD j default).vals.getD (i + k) Val.null) ∧
            (∀ i, (df.getD j default).vals.length ≤ i + k →
              i < (df.getD j default).vals.length →
              ((trimHead df true).getD j default).vals.getD i Val.null
                = Val.null)))) := by
  refine ⟨?_, ?_, ?_⟩
  · cases h : firstCompleteRow df with
    | none => simp [trimHead, h]
    | some m =>
      by_cases hm : m = 0 <;> simp [trimHead, h, hm]
  · intro h
    simp [trimHead, h]
  · intro hk hkpos
    have hk0 : ¬ (k = 0) := by omega
    have hres : trimHead df true
        = df.map (fun c => if isTimeCol c.name then c
            else ⟨c.name, shiftUp k c.vals⟩) := by
      simp [trimHead, hk, hk0]
    refine ⟨(by rw [hres]; simp), ?_⟩
    intro j hj
    have hget : (trimHead df true).getD j default
        = (fun c => if isTimeCol c.name then c
            else ⟨c.name, shiftUp k c.vals⟩) (df.getD j default) := by
      rw [hres, List.getD_eq_getElem?_getD, List.getElem?_map,
        List.getElem?_eq_getElem hj]
      rw [List.getD_eq_getElem?_getD, List.getElem?_eq_getElem hj]
      rfl
    set c := df.getD j default with hc
    by_cases htc : isTimeCol c.name = true
    · have hfc : (trimHead df true).getD j default = c := by
        rw [hget]; simp only [htc, if_true]
      rw [hfc]
      exact ⟨rfl, rfl, fun _ => rfl, fun hcon => by simp [htc] at hcon⟩
    · have htc' : isTimeCol c.name = false := Bool.eq_false_iff.2 htc
      have hfc : (trimHead df true).getD j default
          = ⟨c.name, shiftUp k c.vals⟩ := by
        rw [hget]; simp only [htc', Bool.false_eq_true, if_false]
      rw [hfc]
      refine ⟨rfl, shiftUp_length k c.vals, fun hcon => ?_, fun _ => ?_⟩
      · simp [hcon] at htc'
      · exact ⟨fun i hi => shiftUp_getD_lt hi,
          fun i hi1 hi2 => shiftUp_getD_ge hi1 hi2⟩

/-- Witness for C8 at a concrete input: first complete row at position 1; the
time column is kept, the data column shifts up by 1. -/
theorem C8_head_trim_witness :
    firstCompleteRow [⟨"secs", [Val.num 0, Val.num 1]⟩,
      ⟨"watts", [Val.null, Val.num 5]⟩] = some 1 ∧ (0 : ℕ) < 1 ∧
    (trimHead [⟨"secs", [Val.num 0, Val.num 1]⟩,
        ⟨"watts", [Val.null, Val.num 5]⟩] true).length
      = ([⟨"secs", [Val.num 0, Val.num 1]⟩,
        ⟨"watts", [Val.null, Val.num 5]⟩] : Frame).length :=
  ⟨by decide, by decide,
    ((C8_head_trim [⟨"secs", [Val.num 0, Val.num 1]⟩,
        ⟨"watts", [Val.null, Val.num 5]⟩] true 1).2.2
      (by decide) (by decide)).1⟩

/-- Median of a list of rationals, pandas convention: middle element of the
sorted values for an odd count, mean of the two middle elements for an even
count (callers guard the empty case). -/
def median (l : List ℚ) : ℚ :=
  let s := List.insertionSort (· ≤ ·) l
  if l.length % 2 = 1 then s.getD (l.length / 2) 0
  else (s.getD (l.length / 2 - 1) 0 + s.getD (l.length / 2) 0) / 2

/-- `series.diff().dropna()`: differences of adjacent numeric cells; a NaN on
either side yields a NaN diff, which `dropna` removes. -/
def diffsDropna : List (Option ℚ) → List ℚ
  | [] => []
  | [_] => []
  | Option.some a :: Option.some b :: rest =>
    (b - a) :: diffsDropna (Option.some b :: rest)
  | _ :: b :: rest => diffsDropna (b :: rest)

/-- `detect_sampling_rate(df, time_col)`: 1.0 when the time column is absent
or the table has fewer than two rows, 1.0 when there are no valid diffs or
the median diff is non-positive, else the inverse of the median diff. -/
def detect_sampling_rate (df : Frame) (time_col : String := "secs") : ℚ :=
  match lookupCol df time_col with
  | Option.none => 1
  | some vals =>
    if nRows df < 2 then 1
    else
      let time_diff := diffsDropna (vals.map toNumericCell)
      if time_diff.length = 0 then 1
      else
        let median_diff := median time_diff
        if median_diff ≤ 0 then 1
        else 1 / median_diff

/-- Claim C9.  `detect_sampling_rate` returns exactly 1.0 for tables with
fewer than two rows and for non-positive median time-deltas (its conservative
fallbacks — being a total function it never raises); on `[0,1,2,3,4,5]` it
returns exactly 1.0, and on `[0.0, 0.1, ..., 1.0]` it returns a value in
`[9.5, 10.5]` (exactly 10 in exact arithmetic). -/
theorem C9_detect_sampling_rate (df : Frame) (tc : String) :
    (nRows df < 2 → detect_sampling_rate df tc = 1) ∧
    (∀ vals, lookupCol df tc = some vals →
      median (diffsDropna (vals.map toNumericCell)) ≤ 0 →
      detect_sampling_rate df tc = 1) ∧
    detect_sampling_rate
      [⟨"secs", [Val.num 0, Val.num 1, Val.num 2, Val.num 3, Val.num 4,
        Val.num 5]⟩] "secs" = 1 ∧
    ((19 / 2 : ℚ) ≤ detect_sampling_rate
        [⟨"secs", [Val.num 0, Val.num (1/10), Val.num (2/10), Val.num (3/10),
          Val.num (4/10), Val.num (5/10), Val.num (6/10), Val.num (7/10),
          Val.num (8/10), Val.num (9/10), Val.num 1]⟩] "secs" ∧
      detect_sampling_rate
        [⟨"secs", [Val.num 0, Val.num (1/10), Val.num (2/10), Val.num (3/10),
          Val.num (4/10), Val.num (5/10), Val.num (6/10), Val.num (7/10),
          Val.num (8/10), Val.num (9/10), Val.num 1]⟩] "secs" ≤ 21 / 2) := by
  refine ⟨?_, ?_, by with_unfolding_all rfl,
    of_decide_eq_true (by with_unfolding_all rfl),
    of_decide_eq_true (by with_unfolding_all rfl)⟩
  · intro h2
    cases hlk : lookupCol df tc with
    | none => simp [detect_sampling_rate, hlk]
    | some vals => simp [detect_sampling_rate, hlk, h2]
  · intro vals hlk hmed
    by_cases h2 : nRows df < 2
    · simp [detect_sampling_rate, hlk, h2]
    · by_cases h0 : (diffsDropna (vals.map toNumericCell)).length = 0
      · simp [detect_sampling_rate, hlk, h2, h0]
      · simp [detect_sampling_rate, hlk, h2, h0, hmed]

/-- Witness for C9 at concrete inputs: a one-row table falls back to 1.0, and
a constant time column (median delta 0) falls back to 1.0. -/
theorem C9_detect_sampling_rate_witness :
    (nRows [⟨"secs", [Val.num 7]⟩] < 2 ∧
      detect_sampling_rate [⟨"secs", [Val.num 7]⟩] "secs" = 1) ∧
    (lookupCol [⟨"secs", [Val.num 5, Val.num 5, Val.num 5]⟩] "secs"
        = some [Val.num 5, Val.num 5, Val.num 5] ∧
      median (diffsDropna ([Val.num 5, Val.num 5, Val.num 5].map
        toNumericCell)) ≤ 0 ∧
      detect_sampling_rate [⟨"secs", [Val.num 5, Val.num 5, Val.num 5]⟩]
        "secs" = 1) :=
  ⟨⟨by decide, (C9_detect_sampling_rate [⟨"secs", [Val.num 7]⟩] "secs").1
      (by decide)⟩,
   ⟨by decide, of_decide_eq_true (by with_unfolding_all rfl),
    (C9_detect_sampling_rate [⟨"secs", [Val.num 5, Val.num 5, Val.num 5]⟩]
        "secs").2.1 [Val.num 5, Val.num 5, Val.num 5] (by decide)
      (of_decide_eq_true (by with_unfolding_all rfl))⟩⟩

/-- Aggregation methods of `resample_to_frequency`. -/
inductive AggMethod where
  | mean : AggMethod
  | first : AggMethod
  | last : AggMethod
  | median : AggMethod
deriving DecidableEq, Repr

/-- Truncation toward zero, `astype(int)` on a float. -/
def ratTrunc (q : ℚ) : ℤ :=
  if 0 ≤ q then q.floor else -((-q).floor)

/-- Values of a column falling into bucket `k` (rows paired positionally with
the bucket keys). -/
def groupVals (keys : List ℤ) (vals : List Val) (k : ℤ) : List Val :=
  ((keys.zip vals).filter (fun p => decide (p.1 = k))).map (fun p => p.2)

/-- Aggregate a numeric column's bucket: pandas skips NaN; an all-NaN bucket
aggregates to NaN. -/
def aggNum (m : AggMethod) (vs : List Val) : Val :=
  let nums := vs.filterMap cellNum
  match m with
  | AggMethod.mean =>
    match nums with
    | [] => Val.null
    | _ => Val.num (nums.sum / (nums.length : ℚ))
  | AggMethod.first =>
    match nums with
    | [] => Val.null
    | q :: _ => Val.num q
  | AggMethod.last =>
    match nums.getLast? with
    | some q => Val.num q
    | Option.none => Val.null
  | AggMethod.median =>
    match nums with
    | [] => Val.null
    | _ => Val.num (median nums)

/-- `agg('first')` on a non-numeric column: first non-null value of the
bucket. -/
def aggFirst (vs : List Val) : Val :=
  match vs.find? (fun v => !isna v) with
  | some v => v
  | Option.none => Val.null

/-- `resample_to_frequency(df, time_col, target_freq, current_freq,
agg_method)`: raises `ValueError` when the time column is absent; detects the
current frequency from the median diff when not supplied (rounding the
inverse, falling back to 1); returns the table unchanged when already at the
target; otherwise buckets rows by `int(time * target_freq)` and aggregates
numeric columns with the chosen method and the remaining columns with
`first`, the sorted bucket keys becoming the new time column. -/
def resample_to_frequency (df : Frame) (time_col : String := "secs")
    (target_freq : ℤ := 1) (current_freq : Option ℤ := Option.none)
    (agg_method : AggMethod := AggMethod.mean) : Except String Frame :=
  if (lookupCol df time_col).isSome = false then
    Except.error ("Time column '" ++ time_col ++ "' not found in DataFrame")
  else
    let tnums := ((lookupCol df time_col).getD []).map toNumericCell
    let current : ℤ := match current_freq with
      | some f => f
      | Option.none =>
        let time_diff := median (diffsDropna tnums)
        if 0 < time_diff then round (1 / time_diff) else 1
    if current = target_freq then Except.ok df
    else
      let keys := tnums.map (fun t => ratTrunc ((t.getD 0) * (target_freq : ℚ)))
      let ks := List.insertionSort (· ≤ ·) keys.dedup
      let numericCols := df.filter (fun c =>
        isNumericCol c && decide (c.name ≠ time_col))
      let nonNumericCols := df.filter (fun c =>
        !isNumericCol c && decide (c.name ≠ time_col))
      Except.ok (⟨time_col, ks.map (fun k => Val.num (k : ℚ))⟩ ::
        (numericCols.map (fun c =>
          ⟨c.name, ks.map (fun k => aggNum agg_method (groupVals keys c.vals k))⟩)
        ++ nonNumericCols.map (fun c =>
          ⟨c.name, ks.map (fun k => aggFirst (groupVals keys c.vals k))⟩)))

/-- Claim C10.  When the named time column is absent, `resample_to_frequency`
raises `ValueError` naming the column — unlike `detect_sampling_rate`, which
falls back to 1.0 on the same table. -/
theorem C10_resample_missing_time_col (df : Frame) (tc : String) (tf : ℤ)
    (cf : Option ℤ) (agg : AggMethod)
    (h : lookupCol df tc = Option.none) :
    resample_to_frequency df tc tf cf agg
      = Except.error ("Time column '" ++ tc ++ "' not found in DataFrame") ∧
    detect_sampling_rate df tc = 1 := by
  constructor
  · simp [resample_to_frequency, h]
  · simp [detect_sampling_rate, h]

/-- Witness for C10 at a concrete input: a table without a `secs` column. -/
theorem C10_resample_missing_time_col_witness :
    lookupCol [⟨"watts", [Val.num 100]⟩] "secs" = Option.none ∧
    (resample_to_frequency [⟨"watts", [Val.num 100]⟩] "secs" 1 Option.none
        AggMethod.mean
      = Except.error ("Time column 'secs' not found in DataFrame") ∧
    detect_sampling_rate [⟨"watts", [Val.num 100]⟩] "secs" = 1) :=
  ⟨by decide,
    C10_resample_missing_time_col [⟨"watts", [Val.num 100]⟩] "secs" 1
      Option.none AggMethod.mean (by decide)⟩

/-- Witness for C6 (amended) at a concrete input: sources with disjoint
column sets merge to the same values in either order. -/
theorem C6_order_independent_witness :
    (∀ c ∈ ([⟨"smo2", [Val.num 65]⟩] : Frame), ∀ c' ∈ ([⟨"VE", [Val.num 20]⟩] : Frame),
      c.name ≠ c'.name) ∧
    lookupCol (merge_files [⟨"secs", [Val.num 0]⟩]
        [[⟨"smo2", [Val.num 65]⟩], [⟨"VE", [Val.num 20]⟩]] false false) "smo2"
      = lookupCol (merge_files [⟨"secs", [Val.num 0]⟩]
        [[⟨"VE", [Val.num 20]⟩], [⟨"smo2", [Val.num 65]⟩]] false false) "smo2" :=
  ⟨by decide, C6_order_independent _ _ _ (by decide) "smo2"⟩

/-- Counterexample to claim C2 as stated: merging a 1-row base with a 2-row
source yields a 2-row merged table — `pd.concat(axis=1)` outer-joins the row
indexes, so a source longer than the base extends the row count. -/
theorem C2_rowcount_counterexample :
    nRows (merge_files [⟨"t", [Val.num 0]⟩] [[⟨"x", [Val.num 1, Val.num 2]⟩]]
        false false) = 2 ∧
    nRows ([⟨"t", [Val.num 0]⟩] : Frame) = 1 := by
  constructor <;> decide

/-- Claim C2 (amended).  The merged table (before any trimming) has exactly as
many rows as the base table, provided no contributed source table has more
rows than the base; in general the row count is the maximum of the base's and
the kept sources' row counts. -/
theorem C2_rowcount_eq_base (base : Frame) (sources : List Frame)
    (h : ∀ df ∈ sources, nRows df ≤ nRows base) :
    nRows (merge_files base sources false false) = nRows base := by
  rw [merge_files_no_trim, concatCols]
  set kept := mergeFold sources (colNames base) with hkept
  set N := ((base :: kept).map nRows).foldr max 0 with hN
  have hkeptle : ∀ g ∈ kept, nRows g ≤ nRows base :=
    fun g hg => mergeFold_nRows_le h (colNames base) g hg
  have hNval : N = nRows base := by
    rw [hN, List.map_cons, List.foldr_cons]
    exact Nat.max_eq_left (foldr_max_map_le hkeptle)
  by_cases hflat : (base :: kept).flatten = []
  · have hbase : base = [] := by
      rw [List.flatten_cons] at hflat
      exact (List.append_eq_nil.1 hflat).1
    rw [hflat]
    subst hbase
    simp [nRows]
  · have hmem : ∀ c ∈ (base :: kept).flatten, ((padTo N c).vals).length = N := by
      intro c hc
      rcases List.mem_flatten.1 hc with ⟨f, hf, hcf⟩
      have hlen : c.vals.length ≤ N := by
        have h1 : c.vals.length ≤ nRows f := length_le_nRows hcf
        have h2 : nRows f ≤ nRows base := by
          rcases List.mem_cons.1 hf with hf | hf
          · subst hf; exact le_refl _
          · exact hkeptle f hf
        rw [hNval]; exact le_trans h1 h2
      show (c.vals ++ List.replicate (N - c.vals.length) Val.null).length = N
      rw [List.length_append, List.length_replicate]
      omega
    calc nRows (((base :: kept).flatten).map (padTo N))
        = ((((base :: kept).flatten).map (padTo N)).map
            (fun c => c.vals.length)).foldr max 0 := rfl
      _ = N := by
          rw [List.map_map]
          exact foldr_max_map_const hmem hflat
      _ = nRows base := hNval

/-- Witness for C2 (amended) at a concrete input: a 2-row base merged with a
1-row source keeps the base's 2 rows. -/
theorem C2_rowcount_eq_base_witness :
    (∀ df ∈ [[⟨"x", [Val.num 5]⟩]],
      nRows df ≤ nRows [⟨"t", [Val.num 0, Val.num 1]⟩]) ∧
    nRows (merge_files [⟨"t", [Val.num 0, Val.num 1]⟩] [[⟨"x", [Val.num 5]⟩]]
        false false) = nRows [⟨"t", [Val.num 0, Val.num 1]⟩] :=
  ⟨by decide, C2_rowcount_eq_base _ _ (by decide)⟩
